import Mathlib

/-! Transport link (`tumblr/circuit/sys/transport/link.go`).

A sequential embedding of the `link` type: the per-endpoint multiplexer that
owns one `swapConn`, a table of open conns keyed by `connID`, and a read loop.

Conventions of the embedding.

* The mutex `lk` is not modelled: every method body is one atomic step.  The
  read loop is split into its iteration (`link.readLoopIter`) and the demux
  `switch` (`link.dispatch`), so that a frame that was read before the link
  changed state can still be dispatched on the changed state.
* Calls that leave the `link` struct (the `onclose` callback, methods of
  `swapConn` and of `conn`, `log.Printf`) are recorded, in program order, in
  a list of `Event`s returned by each operation.
* Results of calls into code that is not part of this file of the package
  (`swap.Write`, `swap.Read`, `chooseConnID`) are inputs of the operations.
-/

namespace transport

/-! ## Data model -/

/-- The type `connID` (an integer id chosen by the opening side). -/
abbrev connID := Nat

/-- The value of a `*link`: the address of a heap-allocated `link` struct. -/
abbrev linkPtr := Nat

/-- The payload of a `connMsg` (an `interface{}` value in the source). -/
abbrev Payload := List Nat

/-- Modelled from the spec: the error sentinels `ErrEnd`, `ErrAlreadyClosed`,
`errCollision` and `ErrNotSupported` are package-level variables declared in a
file of the package other than `link.go`.  Each identifier is its own
constructor; `io` stands for any error value produced by the codec. -/
inductive Error where
  | ErrEnd
  | ErrAlreadyClosed
  | errCollision
  | ErrNotSupported
  | io (code : Nat)
  deriving DecidableEq, Repr

/-- Modelled from the spec: the `conn` struct is declared outside `link.go`;
`makeConn(id, l)` builds a conn with that id and that parent link.  Only the
identity of a conn (its id and the address of its parent) is kept here; its
inbound queue and closed flag live behind the `Event`s `sendRead` and
`connClose`. -/
structure conn where
  id : connID
  l : linkPtr
  deriving DecidableEq, Repr

/-- Modelled from the spec: `swapConn`, the holder around the frame codec
built by `makeSwapConn(g, pipelining)`; `g` names the underlying `gobConn`. -/
structure swapConn where
  g : Nat
  pipelining : Int
  deriving DecidableEq, Repr

/-- The frames the read loop can receive: `*openMsg`, `*connMsg`, and any
other dynamic type (the `default` branch of the type switch). -/
inductive Msg where
  | openMsg (ID : connID)
  | connMsg (ID : connID) (payload : Payload)
  | other (tag : Nat)
  deriving DecidableEq, Repr

/-- A non-nil Go `map[connID]*conn`, as an association list. -/
abbrev connMap := List (connID × conn)

/-- Map read `m[id]`: `none` is the nil result of an absent key. -/
def connMap.get : connMap → connID → Option conn
  | [], _ => none
  | (k, c) :: rest, id => if k = id then some c else connMap.get rest id

/-- Builtin `delete(m, id)`. -/
def connMap.delete (m : connMap) (id : connID) : connMap :=
  m.filter (fun e => decide (e.1 ≠ id))

/-- Map assignment `m[id] = c`. -/
def connMap.set (m : connMap) (id : connID) (c : conn) : connMap :=
  (id, c) :: connMap.delete m id

/-- The conns stored in a map, one per entry. -/
def connMap.values (m : connMap) : List conn :=
  m.map Prod.snd

/-- The `link` struct.  `self` is the address of the struct (the receiver
pointer `l`), `open_` is the field `open` (a nil map is `none`), `swap` is the
field `swap` (a nil pointer is `none`), and `ach` lists the conns sent so far
on the channel `ach`, oldest first.  The fields `lk` and `trigger` carry no
data; `onclose` is recorded as an event when it is called. -/
structure link where
  self : linkPtr
  pipelining : Int
  addr : Nat
  open_ : Option connMap
  swap : Option swapConn
  ach : List conn
  deriving DecidableEq, Repr

/-- Lines written with `log.Printf`. -/
inductive LogLine where
  | connIdCollision
  | corruptMsg (addr : Nat) (err : Error)
  | collisionUnlikely
  deriving DecidableEq, Repr

/-- Calls that leave the link, in program order.  `onclose` records the values
of `swap` and `open` that the callback can observe when it runs. -/
inductive Event where
  | onclose (swap : Option swapConn) (open_ : Option connMap)
  | swapClose (s : swapConn)
  | swapWrite (s : swapConn) (payload : Msg) (err : Option Error)
  | connClose (c : conn)
  | sendRead (c : conn) (payload : Payload)
  | log (line : LogLine)
  deriving DecidableEq, Repr

/-- What an operation yields: its return value, the link afterwards, and the
events it emitted. -/
structure Out (α : Type) where
  ret : α
  l : link
  tr : List Event

/-- What `Open` yields; `minted` counts the calls of `chooseConnID` so far. -/
structure OpenOut where
  ret : Except Error conn
  l : link
  tr : List Event
  minted : Nat

/-! ## Operations -/

/-- Modelled from the spec: `makeSwapConn(g, pipelining)`. -/
def makeSwapConn (g : Nat) (pipelining : Int) : swapConn :=
  { g := g, pipelining := pipelining }

/-- Modelled from the spec: `makeConn(id, l)`. -/
def makeConn (id : connID) (l : link) : conn :=
  { id := id, l := l.self }

/-- Modelled from the spec: `chooseConnID()` draws the next value of a random
source; `rand k` is the value of the `k`-th draw and `n` the number of draws
made so far. -/
def chooseConnID (rand : Nat → connID) (n : Nat) : connID × Nat :=
  (rand n, n + 1)

/-- `makeLink(a, g, ach, onclose, pipelining)`, allocated at address `self`.
The goroutine started by `go l.readLoop()` is the availability of
`link.readLoopIter` steps. -/
def makeLink (self : linkPtr) (a : Nat) (g : Nat) (ach : List conn) (pipelining : Int) : link :=
  { self := self
    pipelining := pipelining
    addr := a
    open_ := some []
    swap := some (makeSwapConn g pipelining)
    ach := ach }

/-- `link.shutdown`: returns the snapshot of the open table (`none` is nil). -/
def link.shutdown (l : link) : Out (Option connMap) :=
  match l.swap with
  | none => ⟨none, l, []⟩
  | some s =>
    ⟨l.open_, { l with swap := none, open_ := none },
      [Event.onclose l.swap l.open_, Event.swapClose s]⟩

/-- `link.drop`. -/
def link.drop (l : link) (id : connID) : link :=
  match l.open_ with
  | none => l
  | some m => { l with open_ := some (connMap.delete m id) }

/-- Modelled from the spec: the effect of `conn.Close` on a link: the conn
removes itself from the open table of its parent link. -/
def conn.Close (c : conn) (l : link) : link :=
  if c.l = l.self then l.drop c.id else l

/-- The loop `for _, c := range open { c.Close() }` of `link.close`, over the
entries of the snapshot in list order. -/
def closeConns : List (connID × conn) → link → link × List Event
  | [], l => (l, [])
  | e :: rest, l =>
    let r := closeConns rest (conn.Close e.2 l)
    (r.1, Event.connClose e.2 :: r.2)

/-- `link.close`. -/
def link.close (l : link) : Out Unit :=
  let o := l.shutdown
  match o.ret with
  | none => ⟨(), o.l, o.tr⟩
  | some conns =>
    let r := closeConns conns o.l
    ⟨(), r.1, o.tr ++ r.2⟩

/-- `link.add`. -/
def link.add (l : link) (id : connID) : Out (Except Error conn) :=
  let c := makeConn id l
  match l.open_ with
  | none => ⟨Except.error Error.ErrEnd, l, []⟩
  | some m =>
    match connMap.get m id with
    | some _ => ⟨Except.error Error.errCollision, l, [Event.log LogLine.connIdCollision]⟩
    | none => ⟨Except.ok c, { l with open_ := some (connMap.set m id c) }, []⟩

/-- `link.lookup`. -/
def link.lookup (l : link) (id : connID) : Option conn :=
  match l.open_ with
  | none => none
  | some m => connMap.get m id

/-- `link.Write`; `werr` is what `swap.Write(payload)` returns when it is
called (`none` is a nil error). -/
def link.Write (l : link) (payload : Msg) (werr : Option Error) : Out (Option Error) :=
  match l.swap with
  | none => ⟨some Error.ErrAlreadyClosed, l, []⟩
  | some s =>
    match werr with
    | some e =>
      let o := l.close
      ⟨some e, o.l, Event.swapWrite s payload (some e) :: o.tr⟩
    | none => ⟨none, l, [Event.swapWrite s payload none]⟩

/-- `link.Open`; `werr` is what `swap.Write` returns if it is reached. -/
def link.Open (l : link) (rand : Nat → connID) (n : Nat) (werr : Option Error) : OpenOut :=
  let idn := chooseConnID rand n
  let a := l.add idn.1
  match a.ret with
  | Except.error err => ⟨Except.error err, a.l, a.tr, idn.2⟩
  | Except.ok c =>
    let w := a.l.Write (Msg.openMsg idn.1) werr
    match w.ret with
    | some err => ⟨Except.error err, w.l, a.tr ++ w.tr, idn.2⟩
    | none => ⟨Except.ok c, w.l, a.tr ++ w.tr, idn.2⟩

/-- The type switch of `link.readLoop` on a frame that was read.  The result
is `true` when the loop goes on to its next iteration and `false` when
`readLoop` returns. -/
def link.dispatch (l : link) (m : Msg) : Out Bool :=
  match m with
  | Msg.openMsg id =>
    let a := l.add id
    match a.ret with
    | Except.ok c => ⟨true, { a.l with ach := a.l.ach ++ [c] }, a.tr⟩
    | Except.error Error.errCollision =>
      ⟨true, a.l, a.tr ++ [Event.log LogLine.collisionUnlikely]⟩
    | Except.error Error.ErrEnd => ⟨false, a.l, a.tr⟩
    | Except.error _ => ⟨true, a.l, a.tr⟩
  | Msg.connMsg id p =>
    match l.lookup id with
    | none => ⟨true, l, []⟩
    | some c => ⟨true, l, [Event.sendRead c p]⟩
  | Msg.other _ => ⟨true, l, []⟩

/-- One iteration of the `for` loop of `link.readLoop`; `rd` is what
`swap.Read()` returns when it is called. -/
def link.readLoopIter (l : link) (rd : Except Error Msg) : Out Bool :=
  match l.swap with
  | none => ⟨false, l, []⟩
  | some _ =>
    match rd with
    | Except.error err =>
      let o := l.close
      ⟨false, o.l, Event.log (LogLine.corruptMsg l.addr err) :: o.tr⟩
    | Except.ok m => l.dispatch m

/-- `link.readLoop` run against a finite list of read results.  The result is
`false` when `readLoop` has returned and `true` when it is still looping with
all the given reads consumed. -/
def link.readLoop (l : link) : List (Except Error Msg) → Out Bool
  | [] => ⟨true, l, []⟩
  | rd :: rest =>
    let o := l.readLoopIter rd
    if o.ret then
      let r := link.readLoop o.l rest
      ⟨r.ret, r.l, o.tr ++ r.tr⟩
    else o

/-- `link.reconnect`: no effect on the link. -/
def link.reconnect (l : link) : link := l

/-- `link.acceptReconnect`. -/
def link.acceptReconnect (l : link) (_g : Nat) : Out (Option Error) :=
  ⟨some Error.ErrNotSupported, l, []⟩

/-! ## Runs of operations -/

/-- One call on a link, with the inputs it takes from its environment. -/
inductive Op where
  | close
  | shutdown
  | Open (id : connID) (werr : Option Error)
  | add (id : connID)
  | lookup (id : connID)
  | drop (id : connID)
  | Write (payload : Msg) (werr : Option Error)
  | dispatch (m : Msg)
  | readLoopIter (rd : Except Error Msg)
  | connClose (c : conn)

/-- The link after one call. -/
def Op.apply : Op → link → link
  | Op.close, l => l.close.l
  | Op.shutdown, l => l.shutdown.l
  | Op.Open id werr, l => (l.Open (fun _ => id) 0 werr).l
  | Op.add id, l => (l.add id).l
  | Op.lookup _, l => l
  | Op.drop id, l => l.drop id
  | Op.Write payload werr, l => (l.Write payload werr).l
  | Op.dispatch m, l => (l.dispatch m).l
  | Op.readLoopIter rd, l => (l.readLoopIter rd).l
  | Op.connClose c, l => conn.Close c l

/-- The link after a sequence of calls, first call first. -/
def run : List Op → link → link
  | [], l => l
  | op :: rest, l => run rest (op.apply l)

/-- States reachable from `makeLink` by a sequence of calls. -/
def Reachable (l : link) : Prop :=
  ∃ self a g ach pipelining ops, l = run ops (makeLink self a g ach pipelining)

/-- The conns of the open table, one per entry (none for a nil table). -/
def link.conns (l : link) : List conn :=
  match l.open_ with
  | none => []
  | some m => connMap.values m

/-- The conns whose `Close` was called in a trace, in order. -/
def closedConns : List Event → List conn
  | [] => []
  | Event.connClose c :: rest => c :: closedConns rest
  | _ :: rest => closedConns rest

/-- The number of calls of the `onclose` callback in a trace. -/
def oncloseCount : List Event → Nat
  | [] => 0
  | Event.onclose _ _ :: rest => oncloseCount rest + 1
  | _ :: rest => oncloseCount rest

/-- The calls of `swap.Close` in a trace, in order. -/
def swapCloses : List Event → List swapConn
  | [] => []
  | Event.swapClose s :: rest => s :: swapCloses rest
  | _ :: rest => swapCloses rest

/-- The frames handed to `swap.Write` in a trace, in order. -/
def framesWritten : List Event → List Msg
  | [] => []
  | Event.swapWrite _ m _ :: rest => m :: framesWritten rest
  | _ :: rest => framesWritten rest

/-- The deliveries `c.sendRead(p)` of a trace, in order. -/
def deliveries : List Event → List (conn × Payload)
  | [] => []
  | Event.sendRead c p :: rest => (c, p) :: deliveries rest
  | _ :: rest => deliveries rest

/-- The two ways a call can treat the fields `swap` and `open` of a link `l`
when it leaves the link as `l2`: it keeps `swap` and keeps `open` nil or
non-nil as it was, or it leaves both nil. -/
def link.stepsTo (l l2 : link) : Prop :=
  (l2.swap = l.swap ∧ (l2.open_ = none ↔ l.open_ = none))
    ∨ (l2.swap = none ∧ l2.open_ = none)

/-- Every entry `id -> c` of the open table of `l` has `c.id == id` and has
`l` as the parent link of `c`. -/
def link.tableOwned (l : link) : Prop :=
  ∀ M, l.open_ = some M → ∀ k c, (k, c) ∈ M → c.id = k ∧ c.l = l.self

/-- What a call may do to the open table of `l` when it leaves the link as
`l2`: the address of the link is kept, and every entry of the new table is an
entry of the old one or maps its id to the conn `makeConn` builds for that id
on this link. -/
def link.tableStep (l l2 : link) : Prop :=
  l2.self = l.self
    ∧ ∀ M2, l2.open_ = some M2 → ∃ M, l.open_ = some M
        ∧ ∀ k c, (k, c) ∈ M2 → (k, c) ∈ M ∨ c = ⟨k, l.self⟩

/-- A live link at address 7 with two open conns, 4 and 9. -/
def sampleLive : link :=
  { self := 7, pipelining := 2, addr := 1,
    open_ := some [(4, ⟨4, 7⟩), (9, ⟨9, 7⟩)],
    swap := some ⟨3, 2⟩, ach := [] }

/-- The link `sampleLive` after it was closed. -/
def sampleClosed : link :=
  { self := 7, pipelining := 2, addr := 1, open_ := none, swap := none, ach := [] }

end transport

/-! Big-endian integer helpers (`tumblr/kafka/wire.go`).

Unsigned machine integers are natural numbers below `2 ^ w`, signed ones are
integers from `-2 ^ (w-1)` up to `2 ^ (w-1) - 1`, a byte slice is a list of
natural numbers below 256.  The functions of `encoding/binary` are given by
their arithmetic meaning: `v >> k` is `v / 2 ^ k`, `b << k` is `b * 2 ^ k`, and
the bitwise or of bytes shifted to disjoint positions is their sum. -/

namespace kafka

/-- The conversion `byte(x)` of an unsigned integer. -/
def byte (x : Nat) : Nat := x % 256

/-- The conversion `uint64(x)` of an `int64`. -/
def uint64 (x : Int) : Nat := (x % 2 ^ 64).toNat

/-- The conversion `uint32(x)` of an `int32`. -/
def uint32 (x : Int) : Nat := (x % 2 ^ 32).toNat

/-- The conversion `uint16(x)` of an `int16`. -/
def uint16 (x : Int) : Nat := (x % 2 ^ 16).toNat

/-- The conversion `int64(u)` of a `uint64`. -/
def int64 (u : Nat) : Int :=
  if u % 2 ^ 64 < 2 ^ 63 then ((u % 2 ^ 64 : Nat) : Int)
  else ((u % 2 ^ 64 : Nat) : Int) - 2 ^ 64

/-- The conversion `int32(u)` of a `uint32`. -/
def int32 (u : Nat) : Int :=
  if u % 2 ^ 32 < 2 ^ 31 then ((u % 2 ^ 32 : Nat) : Int)
  else ((u % 2 ^ 32 : Nat) : Int) - 2 ^ 32

/-- The conversion `int16(u)` of a `uint16`. -/
def int16 (u : Nat) : Int :=
  if u % 2 ^ 16 < 2 ^ 15 then ((u % 2 ^ 16 : Nat) : Int)
  else ((u % 2 ^ 16 : Nat) : Int) - 2 ^ 16

/-- The slice `make([]byte, n)`. -/
def make (n : Nat) : List Nat := List.replicate n 0

/-- `binary.BigEndian.PutUint64(b, v)` on a slice of at least 8 bytes. -/
def PutUint64 (b : List Nat) (v : Nat) : List Nat :=
  [byte (v / 2 ^ 56), byte (v / 2 ^ 48), byte (v / 2 ^ 40), byte (v / 2 ^ 32),
   byte (v / 2 ^ 24), byte (v / 2 ^ 16), byte (v / 2 ^ 8), byte v] ++ b.drop 8

/-- `binary.BigEndian.PutUint32(b, v)` on a slice of at least 4 bytes. -/
def PutUint32 (b : List Nat) (v : Nat) : List Nat :=
  [byte (v / 2 ^ 24), byte (v / 2 ^ 16), byte (v / 2 ^ 8), byte v] ++ b.drop 4

/-- `binary.BigEndian.PutUint16(b, v)` on a slice of at least 2 bytes. -/
def PutUint16 (b : List Nat) (v : Nat) : List Nat :=
  [byte (v / 2 ^ 8), byte v] ++ b.drop 2

/-- `binary.BigEndian.Uint64(b)`; `none` is the panic on a slice of fewer than
8 bytes. -/
def Uint64 : List Nat → Option Nat
  | b0 :: b1 :: b2 :: b3 :: b4 :: b5 :: b6 :: b7 :: _ =>
    some (b7 + b6 * 2 ^ 8 + b5 * 2 ^ 16 + b4 * 2 ^ 24 + b3 * 2 ^ 32 + b2 * 2 ^ 40
      + b1 * 2 ^ 48 + b0 * 2 ^ 56)
  | _ => none

/-- `binary.BigEndian.Uint32(b)`; `none` is the panic on a slice of fewer than
4 bytes. -/
def Uint32 : List Nat → Option Nat
  | b0 :: b1 :: b2 :: b3 :: _ => some (b3 + b2 * 2 ^ 8 + b1 * 2 ^ 16 + b0 * 2 ^ 24)
  | _ => none

/-- `binary.BigEndian.Uint16(b)`; `none` is the panic on a slice of fewer than
2 bytes. -/
def Uint16 : List Nat → Option Nat
  | b0 :: b1 :: _ => some (b1 + b0 * 2 ^ 8)
  | _ => none

/-- `int64Bytes`. -/
def int64Bytes (value : Int) : List Nat := PutUint64 (make 8) (uint64 value)

/-- `uint64Bytes`. -/
def uint64Bytes (value : Nat) : List Nat := PutUint64 (make 8) value

/-- `int32Bytes`. -/
def int32Bytes (value : Int) : List Nat := PutUint32 (make 4) (uint32 value)

/-- `uint32Bytes`. -/
def uint32Bytes (value : Nat) : List Nat := PutUint32 (make 4) value

/-- `int16Bytes`. -/
def int16Bytes (value : Int) : List Nat := PutUint16 (make 2) (uint16 value)

/-- `bytesInt64`. -/
def bytesInt64 (p : List Nat) : Option Int := (Uint64 p).map int64

/-- `bytesUint64`. -/
def bytesUint64 (p : List Nat) : Option Nat := Uint64 p

/-- `bytesInt32`. -/
def bytesInt32 (p : List Nat) : Option Int := (Uint32 p).map int32

/-- `bytesUint32`. -/
def bytesUint32 (p : List Nat) : Option Nat := Uint32 p

/-- `bytesInt16`. -/
def bytesInt16 (p : List Nat) : Option Int := (Uint16 p).map int16

end kafka

/-! The reflective value rewriter (`circuit/sys/lang/vrewrite.go`): types. -/

namespace lang

mutual
/-- A finite `reflect.Type`, by its `Kind()`: the primitive kinds (`Bool`,
the integers, floats, complex numbers and `String`, told apart by `kind`), and
the kinds with structure.  `elem` is `t.Elem()`, `key` is `t.Key()`. -/
inductive GoType where
  | prim (kind : Nat)
  | chan (elem : GoType)
  | func
  | unsafePointer
  | array (len : Nat) (elem : GoType)
  | slice (elem : GoType)
  | ptr (elem : GoType)
  | map (key : GoType) (elem : GoType)
  | iface
  | struct (fields : GoFields)
/-- The fields of a struct type, in order: `exported` is
`t.Field(i).PkgPath == ""` and `type` is `t.Field(i).Type`. -/
inductive GoFields where
  | nil
  | cons (exported : Bool) (type : GoType) (rest : GoFields)
end

mutual
/-- `isTerminalKind`. -/
def isTerminalKind : GoType → Bool
  | GoType.array _ elem => isTerminalKind elem
  | GoType.slice elem => isTerminalKind elem
  | GoType.ptr elem => isTerminalKind elem
  | GoType.map _ elem => isTerminalKind elem
  | GoType.iface => false
  | GoType.struct fields => fieldsTerminal fields
  | GoType.prim _ => true
  | GoType.chan _ => true
  | GoType.func => true
  | GoType.unsafePointer => true
/-- The loop of the `reflect.Struct` case of `isTerminalKind` over the fields
from some index on: the value of `terminal` when the loop ends. -/
def fieldsTerminal : GoFields → Bool
  | GoFields.nil => true
  | GoFields.cons exported type rest =>
    if exported then
      if !isTerminalKind type then false else fieldsTerminal rest
    else fieldsTerminal rest
end

/-- The types of the exported fields of a struct type. -/
def GoFields.exportedTypes : GoFields → List GoType
  | GoFields.nil => []
  | GoFields.cons exported type rest =>
    if exported then type :: GoFields.exportedTypes rest
    else GoFields.exportedTypes rest

/-- Reference definition, one step: `u` is the element type of the array,
slice or pointer type `t`, or the value type of the map type `t` (never its
key type), or the type of an exported field of the struct type `t` (never of
an unexported field). -/
inductive TypeStep : GoType → GoType → Prop where
  | array (len : Nat) (elem : GoType) : TypeStep (GoType.array len elem) elem
  | slice (elem : GoType) : TypeStep (GoType.slice elem) elem
  | ptr (elem : GoType) : TypeStep (GoType.ptr elem) elem
  | mapValue (key elem : GoType) : TypeStep (GoType.map key elem) elem
  | field (fields : GoFields) (u : GoType) (h : u ∈ GoFields.exportedTypes fields) :
      TypeStep (GoType.struct fields) u

/-- Reference definition: an interface type is reachable from `t` by
repeatedly taking one `TypeStep`. -/
def interfaceReachable (t : GoType) : Prop :=
  Relation.ReflTransGen TypeStep t GoType.iface

/-- The type `struct { Name string; Next *interface{}; hidden interface{} }`. -/
def sampleStruct : GoType :=
  GoType.struct (GoFields.cons true (GoType.prim 24)
    (GoFields.cons true (GoType.ptr GoType.iface)
      (GoFields.cons false GoType.iface GoFields.nil)))

/-- The type `map[interface{}]struct { hidden interface{}; N int }`. -/
def sampleTerminal : GoType :=
  GoType.map GoType.iface (GoType.struct (GoFields.cons false GoType.iface
    (GoFields.cons true (GoType.prim 2) GoFields.nil)))

/-! The reflective value rewriter: values. -/

mutual
/-- A finite `reflect.Value`, by its `Kind()`.  Containers carry the static
element type of their type; `sliceNil`, `mapNil`, `ptrNil` and `ifaceNil` are
the values for which `IsNil()` holds; `iface content` is a non-nil interface
value and `content` is its `Elem()`; `ptr target` is a non-nil pointer and
`target` is its `Elem()`.  A value is a finite tree: a value that contains
itself, through a pointer, slice, map or interface, on which the source does
not stop recursing, is not among these. -/
inductive GoValue where
  | prim (kind : Nat) (data : Nat)
  | chan (elem : GoType)
  | func
  | unsafePointer
  | array (elem : GoType) (elems : GoValues)
  | sliceNil (elem : GoType)
  | slice (elem : GoType) (elems : GoValues)
  | mapNil (key : GoType) (elem : GoType)
  | map (key : GoType) (elem : GoType) (entries : GoEntries)
  | ptrNil (elem : GoType)
  | ptr (target : GoValue)
  | ifaceNil
  | iface (content : GoValue)
  | struct (fields : GoFieldValues)
/-- The elements of an array or slice, in index order. -/
inductive GoValues where
  | nil
  | cons (v : GoValue) (rest : GoValues)
/-- The entries of a map; a key is kept by a number that names it. -/
inductive GoEntries where
  | nil
  | cons (key : Nat) (v : GoValue) (rest : GoEntries)
/-- The fields of a struct value, in order, each with whether it is exported. -/
inductive GoFieldValues where
  | nil
  | cons (exported : Bool) (v : GoValue) (rest : GoFieldValues)
end

/-- `src.Len()` of an array or slice. -/
def GoValues.length : GoValues → Nat
  | GoValues.nil => 0
  | GoValues.cons _ rest => GoValues.length rest + 1

/-- The elements `src.Index(i)`, in order. -/
def GoValues.toList : GoValues → List GoValue
  | GoValues.nil => []
  | GoValues.cons v rest => v :: GoValues.toList rest

/-- The map values `src.MapIndex(mk)`, over the keys of the map. -/
def GoEntries.values : GoEntries → List GoValue
  | GoEntries.nil => []
  | GoEntries.cons _ v rest => v :: GoEntries.values rest

/-- The values of the exported fields of a struct value. -/
def GoFieldValues.exportedValues : GoFieldValues → List GoValue
  | GoFieldValues.nil => []
  | GoFieldValues.cons exported v rest =>
    if exported then v :: GoFieldValues.exportedValues rest
    else GoFieldValues.exportedValues rest

mutual
/-- `src.Type()`. -/
def GoValue.type : GoValue → GoType
  | GoValue.prim kind _ => GoType.prim kind
  | GoValue.chan elem => GoType.chan elem
  | GoValue.func => GoType.func
  | GoValue.unsafePointer => GoType.unsafePointer
  | GoValue.array elem elems => GoType.array (GoValues.length elems) elem
  | GoValue.sliceNil elem => GoType.slice elem
  | GoValue.slice elem _ => GoType.slice elem
  | GoValue.mapNil key elem => GoType.map key elem
  | GoValue.map key elem _ => GoType.map key elem
  | GoValue.ptrNil elem => GoType.ptr elem
  | GoValue.ptr target => GoType.ptr (GoValue.type target)
  | GoValue.ifaceNil => GoType.iface
  | GoValue.iface _ => GoType.iface
  | GoValue.struct fields => GoType.struct (GoFieldValues.types fields)
/-- The fields of the type of a struct value. -/
def GoFieldValues.types : GoFieldValues → GoFields
  | GoFieldValues.nil => GoFields.nil
  | GoFieldValues.cons exported v rest =>
    GoFields.cons exported (GoValue.type v) (GoFieldValues.types rest)
end

/-- An array of `n` copies of `v`. -/
def GoValues.replicate : Nat → GoValue → GoValues
  | 0, _ => GoValues.nil
  | n + 1, v => GoValues.cons v (GoValues.replicate n v)

mutual
/-- The zero value of a type, as `reflect.New(t).Elem()` holds it. -/
def zeroValue : GoType → GoValue
  | GoType.prim kind => GoValue.prim kind 0
  | GoType.chan elem => GoValue.chan elem
  | GoType.func => GoValue.func
  | GoType.unsafePointer => GoValue.unsafePointer
  | GoType.array len elem => GoValue.array elem (GoValues.replicate len (zeroValue elem))
  | GoType.slice elem => GoValue.sliceNil elem
  | GoType.ptr elem => GoValue.ptrNil elem
  | GoType.map key elem => GoValue.mapNil key elem
  | GoType.iface => GoValue.ifaceNil
  | GoType.struct fields => GoValue.struct (zeroFields fields)
/-- The fields of the zero value of a struct type. -/
def zeroFields : GoFields → GoFieldValues
  | GoFields.nil => GoFieldValues.nil
  | GoFields.cons exported type rest =>
    GoFieldValues.cons exported (zeroValue type) (zeroFields rest)
end

/-- The test `v.Kind() == reflect.Ptr && v.IsNil()`. -/
def isNilPtr : GoValue → Bool
  | GoValue.ptrNil _ => true
  | _ => false

/-- What a call `rewriteValue(rewrite, src, dst)` does: it panics; or its
outcome is not determined by the source (see `rewriteEntries`); or it returns
false; or it returns true with `dst` holding the value `dst`. -/
inductive RW where
  | panic
  | undetermined
  | unchanged
  | changed (dst : GoValue)

/-- What a loop of `rewriteValue` has done when `g.Wait()` returns: one of its
goroutines panicked; or the outcome is not determined; or all goroutines are
done, `change` is the flag `g.Change` and `out` are the elements of `dst`. -/
inductive Loop (α : Type) where
  | panic
  | undetermined
  | done (change : Bool) (out : α)

/-- The first statement of `rewriteValue`: `rewrite src` is `some d` when the
call `rewrite(src, dst)` returns true after writing `d` into `dst`; otherwise
the recursive step `next` is taken. -/
def fire (rewrite : GoValue → Option GoValue) (src : GoValue) (next : RW) : RW :=
  match rewrite src with
  | some d => RW.changed d
  | none => next

/-- One goroutine of a loop joins the others: `r` is the outcome of its call
`rewriteValue(rewrite, src__, dst__)`.  When the call returns true it sets
`g.Change` under the lock, and the element of `dst` is what the call wrote;
when it returns false the element of `dst` is set to `src__`.  `put` places
the element in `dst`. -/
def join {α : Type} (put : GoValue → α → α) (src : GoValue) (r : RW)
    (others : Loop α) : Loop α :=
  match r, others with
  | RW.undetermined, _ => Loop.undetermined
  | _, Loop.undetermined => Loop.undetermined
  | RW.panic, _ => Loop.panic
  | _, Loop.panic => Loop.panic
  | RW.changed d, Loop.done _ out => Loop.done true (put d out)
  | RW.unchanged, Loop.done c out => Loop.done c (put src out)

/-- An unexported struct field is skipped by the loop: the field of `dst`
keeps the zero value it had. -/
def skipField (src : GoValue) (others : Loop GoFieldValues) : Loop GoFieldValues :=
  match others with
  | Loop.panic => Loop.panic
  | Loop.undetermined => Loop.undetermined
  | Loop.done c out =>
    Loop.done c (GoFieldValues.cons false (zeroValue (GoValue.type src)) out)

/-- The end of a loop of `rewriteValue`, after `g.Wait()`: `return g.Change`,
with `dst` built by `build` from the new elements. -/
def finish {α : Type} (joined : Loop α) (build : α → GoValue) : RW :=
  match joined with
  | Loop.panic => RW.panic
  | Loop.undetermined => RW.undetermined
  | Loop.done true out => RW.changed (build out)
  | Loop.done false _ => RW.unchanged

/-- The end of the `reflect.Ptr` and `reflect.Interface` cases: when the
recursive call returns true, `dst` is set to the value built from the new
element and true is returned; otherwise false is returned. -/
def wrap (r : RW) (build : GoValue → GoValue) : RW :=
  match r with
  | RW.panic => RW.panic
  | RW.undetermined => RW.undetermined
  | RW.unchanged => RW.unchanged
  | RW.changed d => RW.changed (build d)

mutual
/-- `rewriteValue`.  In the array, slice and struct loops each goroutine
writes only its own element of `dst` and sets `g.Change` under the lock, and
the loop's result is used after `g.Wait()`; so these loops are given by the
outcomes of their recursive calls. -/
def rewriteValue (rewrite : GoValue → Option GoValue) : GoValue → RW
  | GoValue.array elem elems =>
    fire rewrite (GoValue.array elem elems)
      (if isTerminalKind (GoValue.type (GoValue.array elem elems)) then RW.unchanged
       else finish (rewriteElems rewrite elems) (GoValue.array elem))
  | GoValue.sliceNil elem => fire rewrite (GoValue.sliceNil elem) RW.unchanged
  | GoValue.slice elem elems =>
    fire rewrite (GoValue.slice elem elems)
      (if isTerminalKind (GoValue.type (GoValue.slice elem elems)) then RW.unchanged
       else finish (rewriteElems rewrite elems) (GoValue.slice elem))
  | GoValue.mapNil key elem => fire rewrite (GoValue.mapNil key elem) RW.unchanged
  | GoValue.map key elem entries =>
    fire rewrite (GoValue.map key elem entries)
      (if isTerminalKind (GoValue.type (GoValue.map key elem entries)) then RW.unchanged
       else finish (rewriteEntries rewrite entries) (GoValue.map key elem))
  | GoValue.ptrNil elem => fire rewrite (GoValue.ptrNil elem) RW.unchanged
  | GoValue.ptr target =>
    fire rewrite (GoValue.ptr target)
      (if isTerminalKind (GoValue.type (GoValue.ptr target)) then RW.unchanged
       else wrap (rewriteValue rewrite target) GoValue.ptr)
  | GoValue.ifaceNil => fire rewrite GoValue.ifaceNil RW.unchanged
  | GoValue.iface content =>
    fire rewrite (GoValue.iface content)
      (if isNilPtr content then RW.changed GoValue.ifaceNil
       else if isTerminalKind (GoValue.type content) then RW.unchanged
       else wrap (rewriteValue rewrite content) GoValue.iface)
  | GoValue.struct fields =>
    fire rewrite (GoValue.struct fields)
      (if isTerminalKind (GoValue.type (GoValue.struct fields)) then RW.unchanged
       else finish (rewriteFields rewrite fields) GoValue.struct)
  | GoValue.chan elem => fire rewrite (GoValue.chan elem) RW.panic
  | GoValue.func => fire rewrite GoValue.func RW.panic
  | GoValue.unsafePointer => fire rewrite GoValue.unsafePointer RW.panic
  | GoValue.prim kind data => fire rewrite (GoValue.prim kind data) RW.unchanged
/-- The loop over the elements of an array or slice. -/
def rewriteElems (rewrite : GoValue → Option GoValue) : GoValues → Loop GoValues
  | GoValues.nil => Loop.done false GoValues.nil
  | GoValues.cons v rest =>
    join GoValues.cons v (rewriteValue rewrite v) (rewriteElems rewrite rest)
/-- The loop over the keys of a map.  Each goroutine writes the map `dst`
with `dst.SetMapIndex`, without holding `g.Lock()`, under the key it reads
from the loop variable `mk`, which all iterations share.  With one key there
is one goroutine; it runs while the caller waits in `g.Wait()`, and `mk`
holds that key.  With two or more keys the goroutines write the one map
concurrently: the runtime may abort the process, and under which keys the
entries of `dst` end up is not fixed by the source; the outcome is
`undetermined`. -/
def rewriteEntries (rewrite : GoValue → Option GoValue) : GoEntries → Loop GoEntries
  | GoEntries.nil => Loop.done false GoEntries.nil
  | GoEntries.cons key v GoEntries.nil =>
    join (GoEntries.cons key) v (rewriteValue rewrite v) (Loop.done false GoEntries.nil)
  | GoEntries.cons _ _ (GoEntries.cons _ _ _) => Loop.undetermined
/-- The loop over the fields of a struct. -/
def rewriteFields (rewrite : GoValue → Option GoValue) :
    GoFieldValues → Loop GoFieldValues
  | GoFieldValues.nil => Loop.done false GoFieldValues.nil
  | GoFieldValues.cons exported v rest =>
    if exported then
      join (GoFieldValues.cons true) v (rewriteValue rewrite v)
        (rewriteFields rewrite rest)
    else skipField v (rewriteFields rewrite rest)
end

mutual
/-- The value has no chan, func or unsafe-pointer part. -/
def noChanFunc : GoValue → Bool
  | GoValue.chan _ => false
  | GoValue.func => false
  | GoValue.unsafePointer => false
  | GoValue.array _ elems => noChanFuncElems elems
  | GoValue.slice _ elems => noChanFuncElems elems
  | GoValue.map _ _ entries => noChanFuncEntries entries
  | GoValue.ptr target => noChanFunc target
  | GoValue.iface content => noChanFunc content
  | GoValue.struct fields => noChanFuncFields fields
  | GoValue.prim _ _ => true
  | GoValue.sliceNil _ => true
  | GoValue.mapNil _ _ => true
  | GoValue.ptrNil _ => true
  | GoValue.ifaceNil => true
/-- No element has a chan, func or unsafe-pointer part. -/
def noChanFuncElems : GoValues → Bool
  | GoValues.nil => true
  | GoValues.cons v rest => noChanFunc v && noChanFuncElems rest
/-- No map value has a chan, func or unsafe-pointer part. -/
def noChanFuncEntries : GoEntries → Bool
  | GoEntries.nil => true
  | GoEntries.cons _ v rest => noChanFunc v && noChanFuncEntries rest
/-- No field, exported or not, has a chan, func or unsafe-pointer part. -/
def noChanFuncFields : GoFieldValues → Bool
  | GoFieldValues.nil => true
  | GoFieldValues.cons _ v rest => noChanFunc v && noChanFuncFields rest
end

/-- The map has at most one key. -/
def smallMapsEntries1 : GoEntries → Bool
  | GoEntries.nil => true
  | GoEntries.cons _ _ GoEntries.nil => true
  | GoEntries.cons _ _ (GoEntries.cons _ _ _) => false

mutual
/-- Every map of non-terminal type that is a part of the value has at most one
key: `rewriteValue` runs the loop over the keys of no other map. -/
def smallMaps : GoValue → Bool
  | GoValue.array _ elems => smallMapsElems elems
  | GoValue.slice _ elems => smallMapsElems elems
  | GoValue.map key elem entries =>
    (isTerminalKind (GoValue.type (GoValue.map key elem entries))
      || smallMapsEntries1 entries) && smallMapsEntries entries
  | GoValue.ptr target => smallMaps target
  | GoValue.iface content => smallMaps content
  | GoValue.struct fields => smallMapsFields fields
  | GoValue.chan _ => true
  | GoValue.func => true
  | GoValue.unsafePointer => true
  | GoValue.prim _ _ => true
  | GoValue.sliceNil _ => true
  | GoValue.mapNil _ _ => true
  | GoValue.ptrNil _ => true
  | GoValue.ifaceNil => true
/-- Every map that is a part of an element has at most one key. -/
def smallMapsElems : GoValues → Bool
  | GoValues.nil => true
  | GoValues.cons v rest => smallMaps v && smallMapsElems rest
/-- The property `smallMaps` holds of every map value. -/
def smallMapsEntries : GoEntries → Bool
  | GoEntries.nil => true
  | GoEntries.cons _ v rest => smallMaps v && smallMapsEntries rest
/-- Every map that is a part of a field, exported or not, has at most one
key. -/
def smallMapsFields : GoFieldValues → Bool
  | GoFieldValues.nil => true
  | GoFieldValues.cons _ v rest => smallMaps v && smallMapsFields rest
end

/-- Reference definition, one step: from a value to a value it contains, by
an array or slice element, a map value, the target of a non-nil pointer, the
contents of an interface, or an exported struct field, each taken only of a
non-terminal type. -/
inductive ValueStep : GoValue → GoValue → Prop where
  | array (elem : GoType) (elems : GoValues) (u : GoValue)
      (ht : isTerminalKind (GoValue.type (GoValue.array elem elems)) = false)
      (hu : u ∈ GoValues.toList elems) : ValueStep (GoValue.array elem elems) u
  | slice (elem : GoType) (elems : GoValues) (u : GoValue)
      (ht : isTerminalKind (GoValue.type (GoValue.slice elem elems)) = false)
      (hu : u ∈ GoValues.toList elems) : ValueStep (GoValue.slice elem elems) u
  | mapValue (key elem : GoType) (entries : GoEntries) (u : GoValue)
      (ht : isTerminalKind (GoValue.type (GoValue.map key elem entries)) = false)
      (hu : u ∈ GoEntries.values entries) : ValueStep (GoValue.map key elem entries) u
  | ptr (target : GoValue)
      (ht : isTerminalKind (GoValue.type (GoValue.ptr target)) = false) :
      ValueStep (GoValue.ptr target) target
  | iface (content : GoValue)
      (ht : isTerminalKind (GoValue.type content) = false) :
      ValueStep (GoValue.iface content) content
  | field (fields : GoFieldValues) (u : GoValue)
      (ht : isTerminalKind (GoValue.type (GoValue.struct fields)) = false)
      (hu : u ∈ GoFieldValues.exportedValues fields) : ValueStep (GoValue.struct fields) u

/-- Reference definition: the value is an interface value that holds a nil
pointer. -/
def holdsNilPointer (v : GoValue) : Prop :=
  ∃ elem, v = GoValue.iface (GoValue.ptrNil elem)

/-- Reference definition: some interface value reachable from `v` by
`ValueStep`s holds a nil pointer. -/
def reachesTypedNil (v : GoValue) : Prop :=
  ∃ u, Relation.ReflTransGen ValueStep v u ∧ holdsNilPointer u

/-- The function `rewrite` returns false on `v` and on every value reachable
from `v` by `ValueStep`s.  These are sub-values of `v`, and every value on
which `rewriteValue(rewrite, v, dst)` calls `rewrite` is one of them. -/
def quietOn (rewrite : GoValue → Option GoValue) (v : GoValue) : Prop :=
  ∀ u, Relation.ReflTransGen ValueStep v u → rewrite u = none

mutual
/-- Whether some interface value reachable from the value by `ValueStep`s
holds a nil pointer, computed. -/
def hasTypedNil : GoValue → Bool
  | GoValue.array elem elems =>
    !isTerminalKind (GoValue.type (GoValue.array elem elems)) && anyTypedNilElems elems
  | GoValue.slice elem elems =>
    !isTerminalKind (GoValue.type (GoValue.slice elem elems)) && anyTypedNilElems elems
  | GoValue.map key elem entries =>
    !isTerminalKind (GoValue.type (GoValue.map key elem entries))
      && anyTypedNilEntries entries
  | GoValue.ptr target =>
    !isTerminalKind (GoValue.type (GoValue.ptr target)) && hasTypedNil target
  | GoValue.iface content =>
    isNilPtr content || (!isTerminalKind (GoValue.type content) && hasTypedNil content)
  | GoValue.struct fields =>
    !isTerminalKind (GoValue.type (GoValue.struct fields)) && anyTypedNilFields fields
  | GoValue.chan _ => false
  | GoValue.func => false
  | GoValue.unsafePointer => false
  | GoValue.prim _ _ => false
  | GoValue.sliceNil _ => false
  | GoValue.mapNil _ _ => false
  | GoValue.ptrNil _ => false
  | GoValue.ifaceNil => false
/-- Whether `hasTypedNil` holds of some element. -/
def anyTypedNilElems : GoValues → Bool
  | GoValues.nil => false
  | GoValues.cons v rest => hasTypedNil v || anyTypedNilElems rest
/-- Whether `hasTypedNil` holds of some map value. -/
def anyTypedNilEntries : GoEntries → Bool
  | GoEntries.nil => false
  | GoEntries.cons _ v rest => hasTypedNil v || anyTypedNilEntries rest
/-- Whether `hasTypedNil` holds of some exported field. -/
def anyTypedNilFields : GoFieldValues → Bool
  | GoFieldValues.nil => false
  | GoFieldValues.cons exported v rest =>
    (exported && hasTypedNil v) || anyTypedNilFields rest
end

mutual
/-- Reference definition of the rewritten value: the value with every
reachable interface that holds a nil pointer set to the nil interface.  On
the way to such an interface containers are rebuilt: an element, map value or
exported field from which such an interface is reachable is replaced by its
rewritten value, every other one is kept as it is, and an unexported field of
a rebuilt struct is set to the zero value of its type. -/
def collapsed : GoValue → GoValue
  | GoValue.array elem elems => GoValue.array elem (collapsedElems elems)
  | GoValue.slice elem elems => GoValue.slice elem (collapsedElems elems)
  | GoValue.map key elem entries => GoValue.map key elem (collapsedEntries entries)
  | GoValue.ptr target => GoValue.ptr (collapsed target)
  | GoValue.iface content =>
    if isNilPtr content then GoValue.ifaceNil else GoValue.iface (collapsed content)
  | GoValue.struct fields => GoValue.struct (collapsedFields fields)
  | GoValue.chan elem => GoValue.chan elem
  | GoValue.func => GoValue.func
  | GoValue.unsafePointer => GoValue.unsafePointer
  | GoValue.prim kind data => GoValue.prim kind data
  | GoValue.sliceNil elem => GoValue.sliceNil elem
  | GoValue.mapNil key elem => GoValue.mapNil key elem
  | GoValue.ptrNil elem => GoValue.ptrNil elem
  | GoValue.ifaceNil => GoValue.ifaceNil
/-- The elements of a rebuilt array or slice. -/
def collapsedElems : GoValues → GoValues
  | GoValues.nil => GoValues.nil
  | GoValues.cons v rest =>
    GoValues.cons (if hasTypedNil v then collapsed v else v) (collapsedElems rest)
/-- The entries of a rebuilt map. -/
def collapsedEntries : GoEntries → GoEntries
  | GoEntries.nil => GoEntries.nil
  | GoEntries.cons key v rest =>
    GoEntries.cons key (if hasTypedNil v then collapsed v else v) (collapsedEntries rest)
/-- The fields of a rebuilt struct. -/
def collapsedFields : GoFieldValues → GoFieldValues
  | GoFieldValues.nil => GoFieldValues.nil
  | GoFieldValues.cons exported v rest =>
    GoFieldValues.cons exported
      (if exported then (if hasTypedNil v then collapsed v else v)
       else zeroValue (GoValue.type v))
      (collapsedFields rest)
end

end lang

namespace transport

/-! ## Shared lemmas -/

theorem connMap.delete_cons (k : connID) (c : conn) (rest : connMap) (id : connID) :
    connMap.delete ((k, c) :: rest) id
      = if k = id then connMap.delete rest id else (k, c) :: connMap.delete rest id := by
  by_cases h : k = id <;> simp [connMap.delete, List.filter_cons, h]

theorem connMap.get_delete_self (m : connMap) (id : connID) :
    connMap.get (connMap.delete m id) id = none := by
  induction m with
  | nil => rfl
  | cons e rest ih =>
    obtain ⟨k, c⟩ := e
    rw [connMap.delete_cons]
    by_cases h : k = id
    · rw [if_pos h]; exact ih
    · rw [if_neg h, connMap.get, if_neg h]; exact ih

theorem connMap.get_delete_other (m : connMap) (id j : connID) (h : j ≠ id) :
    connMap.get (connMap.delete m id) j = connMap.get m j := by
  induction m with
  | nil => rfl
  | cons e rest ih =>
    obtain ⟨k, c⟩ := e
    rw [connMap.delete_cons]
    by_cases h1 : k = id
    · have h2 : ¬ k = j := fun hj => h (hj.symm.trans h1)
      rw [if_pos h1, connMap.get, if_neg h2]; exact ih
    · rw [if_neg h1]
      by_cases h2 : k = j
      · rw [connMap.get, if_pos h2, connMap.get, if_pos h2]
      · rw [connMap.get, if_neg h2, connMap.get, if_neg h2]; exact ih

theorem connMap.delete_of_get_none (m : connMap) (id : connID)
    (h : connMap.get m id = none) : connMap.delete m id = m := by
  induction m with
  | nil => rfl
  | cons e rest ih =>
    obtain ⟨k, c⟩ := e
    rw [connMap.delete_cons]
    by_cases h1 : k = id
    · rw [connMap.get, if_pos h1] at h; cases h
    · rw [connMap.get, if_neg h1] at h
      rw [if_neg h1, ih h]

theorem conn.Close_of_open_none (c : conn) (l : link) (h : l.open_ = none) :
    conn.Close c l = l := by
  unfold conn.Close link.drop
  split <;> simp [h]

theorem closeConns_of_open_none (cs : List (connID × conn)) (l : link)
    (h : l.open_ = none) :
    closeConns cs l = (l, (connMap.values cs).map Event.connClose) := by
  induction cs with
  | nil => rfl
  | cons e rest ih =>
    simp only [closeConns, conn.Close_of_open_none e.2 l h, ih]
    simp [connMap.values]

theorem link.shutdown_of_swap_none (l : link) (h : l.swap = none) :
    l.shutdown = ⟨none, l, []⟩ := by
  simp [link.shutdown, h]

theorem link.close_of_swap_none (l : link) (h : l.swap = none) :
    l.close = ⟨(), l, []⟩ := by
  simp [link.close, link.shutdown, h]

theorem link.close_of_swap_some (l : link) (s : swapConn) (h : l.swap = some s) :
    l.close = ⟨(), { l with swap := none, open_ := none },
      [Event.onclose (some s) l.open_, Event.swapClose s]
        ++ l.conns.map Event.connClose⟩ := by
  cases ho : l.open_ with
  | none => simp [link.close, link.shutdown, h, ho, link.conns]
  | some m =>
    simp only [link.close, link.shutdown, h, ho, link.conns]
    rw [closeConns_of_open_none m _ rfl]

theorem closedConns_append (a b : List Event) :
    closedConns (a ++ b) = closedConns a ++ closedConns b := by
  induction a with
  | nil => rfl
  | cons e rest ih => cases e <;> simp [closedConns, ih]

theorem closedConns_map_connClose (cs : List conn) :
    closedConns (cs.map Event.connClose) = cs := by
  induction cs with
  | nil => rfl
  | cons c rest ih => simp [closedConns, ih]

theorem oncloseCount_map_connClose (cs : List conn) :
    oncloseCount (cs.map Event.connClose) = 0 := by
  induction cs with
  | nil => rfl
  | cons c rest ih => simp [oncloseCount, ih]

theorem swapCloses_map_connClose (cs : List conn) :
    swapCloses (cs.map Event.connClose) = [] := by
  induction cs with
  | nil => rfl
  | cons c rest ih => simp [swapCloses, ih]

theorem framesWritten_map_connClose (cs : List conn) :
    framesWritten (cs.map Event.connClose) = [] := by
  induction cs with
  | nil => rfl
  | cons c rest ih => simp [framesWritten, ih]

theorem link.add_fresh (l : link) (M : connMap) (id : connID)
    (ho : l.open_ = some M) (hfresh : connMap.get M id = none) :
    l.add id = ⟨Except.ok (makeConn id l),
      { l with open_ := some ((id, makeConn id l) :: M) }, []⟩ := by
  simp [link.add, ho, hfresh, connMap.set, connMap.delete_of_get_none M id hfresh]

theorem link.add_collision (l : link) (M : connMap) (id : connID) (c0 : conn)
    (ho : l.open_ = some M) (hpresent : connMap.get M id = some c0) :
    l.add id = ⟨Except.error Error.errCollision, l,
      [Event.log LogLine.connIdCollision]⟩ := by
  simp [link.add, ho, hpresent]

theorem link.add_closed (l : link) (id : connID) (ho : l.open_ = none) :
    l.add id = ⟨Except.error Error.ErrEnd, l, []⟩ := by
  simp [link.add, ho]

theorem link.Write_ok (l : link) (s : swapConn) (m : Msg) (hs : l.swap = some s) :
    l.Write m none = ⟨none, l, [Event.swapWrite s m none]⟩ := by
  simp [link.Write, hs]

theorem link.Write_fail (l : link) (s : swapConn) (m : Msg) (e : Error)
    (hs : l.swap = some s) :
    l.Write m (some e) = ⟨some e, { l with swap := none, open_ := none },
      Event.swapWrite s m (some e)
        :: ([Event.onclose (some s) l.open_, Event.swapClose s]
              ++ l.conns.map Event.connClose)⟩ := by
  simp [link.Write, hs, link.close_of_swap_some l s hs]

theorem link.Write_closed (l : link) (m : Msg) (werr : Option Error)
    (hs : l.swap = none) :
    l.Write m werr = ⟨some Error.ErrAlreadyClosed, l, []⟩ := by
  simp [link.Write, hs]

theorem link.Open_of_present (l : link) (M : connMap) (rand : Nat → connID) (n : Nat)
    (werr : Option Error) (c0 : conn)
    (ho : l.open_ = some M) (hpresent : connMap.get M (rand n) = some c0) :
    l.Open rand n werr = ⟨Except.error Error.errCollision, l,
      [Event.log LogLine.connIdCollision], n + 1⟩ := by
  simp only [link.Open, chooseConnID, link.add_collision l M (rand n) c0 ho hpresent]

theorem link.Open_of_fresh_ok (l : link) (s : swapConn) (M : connMap)
    (rand : Nat → connID) (n : Nat)
    (hs : l.swap = some s) (ho : l.open_ = some M)
    (hfresh : connMap.get M (rand n) = none) :
    l.Open rand n none
      = ⟨Except.ok (makeConn (rand n) l),
         { l with open_ := some ((rand n, makeConn (rand n) l) :: M) },
         [Event.swapWrite s (Msg.openMsg (rand n)) none], n + 1⟩ := by
  simp only [link.Open, chooseConnID, link.add_fresh l M (rand n) ho hfresh]
  rw [link.Write_ok { l with open_ := some ((rand n, makeConn (rand n) l) :: M) } s _ hs]
  rfl

theorem link.stepsTo_refl (l : link) : l.stepsTo l :=
  Or.inl ⟨rfl, Iff.rfl⟩

theorem link.stepsTo_trans (a b c : link) (h1 : a.stepsTo b) (h2 : b.stepsTo c) :
    a.stepsTo c := by
  rcases h2 with ⟨hs2, ho2⟩ | hcl
  · rcases h1 with ⟨hs1, ho1⟩ | ⟨hs1, ho1⟩
    · exact Or.inl ⟨hs2.trans hs1, ho2.trans ho1⟩
    · exact Or.inr ⟨hs2.trans hs1, ho2.mpr ho1⟩
  · exact Or.inr hcl

theorem link.add_stepsTo (l : link) (id : connID) : l.stepsTo (l.add id).l := by
  cases ho : l.open_ with
  | none => rw [link.add_closed l id ho]; exact link.stepsTo_refl l
  | some m =>
    cases hg : connMap.get m id with
    | none =>
      rw [link.add_fresh l m id ho hg]
      exact Or.inl ⟨rfl, by simp [ho]⟩
    | some c0 => rw [link.add_collision l m id c0 ho hg]; exact link.stepsTo_refl l

theorem link.drop_stepsTo (l : link) (id : connID) : l.stepsTo (l.drop id) := by
  cases ho : l.open_ with
  | none =>
    have h : l.drop id = l := by simp [link.drop, ho]
    rw [h]; exact link.stepsTo_refl l
  | some m =>
    have h : l.drop id = { l with open_ := some (connMap.delete m id) } := by
      simp [link.drop, ho]
    rw [h]
    exact Or.inl ⟨rfl, by simp [ho]⟩

theorem conn.Close_stepsTo (c : conn) (l : link) : l.stepsTo (conn.Close c l) := by
  unfold conn.Close
  split
  · exact link.drop_stepsTo l c.id
  · exact link.stepsTo_refl l

theorem link.shutdown_stepsTo (l : link) : l.stepsTo l.shutdown.l := by
  cases hs : l.swap with
  | none => rw [link.shutdown_of_swap_none l hs]; exact link.stepsTo_refl l
  | some s =>
    have h : l.shutdown.l = { l with swap := none, open_ := none } := by
      simp [link.shutdown, hs]
    rw [h]
    exact Or.inr ⟨rfl, rfl⟩

theorem link.close_stepsTo (l : link) : l.stepsTo l.close.l := by
  cases hs : l.swap with
  | none => rw [link.close_of_swap_none l hs]; exact link.stepsTo_refl l
  | some s => rw [link.close_of_swap_some l s hs]; exact Or.inr ⟨rfl, rfl⟩

theorem link.Write_stepsTo (l : link) (m : Msg) (werr : Option Error) :
    l.stepsTo (l.Write m werr).l := by
  cases hs : l.swap with
  | none => rw [link.Write_closed l m werr hs]; exact link.stepsTo_refl l
  | some s =>
    cases werr with
    | none => rw [link.Write_ok l s m hs]; exact link.stepsTo_refl l
    | some e => rw [link.Write_fail l s m e hs]; exact Or.inr ⟨rfl, rfl⟩

theorem link.Open_stepsTo (l : link) (rand : Nat → connID) (n : Nat)
    (werr : Option Error) : l.stepsTo (l.Open rand n werr).l := by
  have ha := link.add_stepsTo l (rand n)
  have hw := link.Write_stepsTo (l.add (rand n)).l (Msg.openMsg (rand n)) werr
  have hboth := link.stepsTo_trans _ _ _ ha hw
  simp only [link.Open, chooseConnID]
  split
  · exact ha
  · split
    · exact hboth
    · exact hboth

theorem link.dispatch_stepsTo (l : link) (m : Msg) : l.stepsTo (l.dispatch m).l := by
  cases m with
  | openMsg id =>
    have ha := link.add_stepsTo l id
    simp only [link.dispatch]
    split
    · exact ha
    · exact ha
    · exact ha
    · exact ha
  | connMsg id p =>
    simp only [link.dispatch]
    split
    · exact link.stepsTo_refl l
    · exact link.stepsTo_refl l
  | other tag => exact link.stepsTo_refl l

theorem link.readLoopIter_stepsTo (l : link) (rd : Except Error Msg) :
    l.stepsTo (l.readLoopIter rd).l := by
  cases hs : l.swap with
  | none =>
    have h : l.readLoopIter rd = ⟨false, l, []⟩ := by simp [link.readLoopIter, hs]
    rw [h]; exact link.stepsTo_refl l
  | some s =>
    cases rd with
    | error e =>
      have h : (l.readLoopIter (Except.error e)).l = l.close.l := by
        simp [link.readLoopIter, hs]
      rw [h]; exact link.close_stepsTo l
    | ok m =>
      have h : l.readLoopIter (Except.ok m) = l.dispatch m := by
        simp [link.readLoopIter, hs]
      rw [h]; exact link.dispatch_stepsTo l m

theorem Op.apply_stepsTo (op : Op) (l : link) : l.stepsTo (op.apply l) := by
  cases op with
  | close => exact link.close_stepsTo l
  | shutdown => exact link.shutdown_stepsTo l
  | Open id werr => exact link.Open_stepsTo l _ 0 werr
  | add id => exact link.add_stepsTo l id
  | lookup id => exact link.stepsTo_refl l
  | drop id => exact link.drop_stepsTo l id
  | Write payload werr => exact link.Write_stepsTo l payload werr
  | dispatch m => exact link.dispatch_stepsTo l m
  | readLoopIter rd => exact link.readLoopIter_stepsTo l rd
  | connClose c => exact conn.Close_stepsTo c l

theorem run_stepsTo (ops : List Op) (l : link) : l.stepsTo (run ops l) := by
  induction ops generalizing l with
  | nil => exact link.stepsTo_refl l
  | cons op rest ih =>
    exact link.stepsTo_trans _ _ _ (Op.apply_stepsTo op l) (ih (op.apply l))

theorem link.stepsTo_closed (l l2 : link) (h : l.stepsTo l2)
    (hs : l.swap = none) (ho : l.open_ = none) :
    l2.swap = none ∧ l2.open_ = none := by
  rcases h with ⟨h1, h2⟩ | hcl
  · exact ⟨h1.trans hs, h2.mpr ho⟩
  · exact hcl

/-! ## Closing a link -/

/-- C1: `link.close` is idempotent.  For every link state, after one call of
`close` a second call is a no-op: `shutdown` returns no conns, the second call
emits no event at all (so `onclose` is not invoked again, the swap conn is not
closed again and no conn has `Close` called), and the link is unchanged; after
the first call `swap` is nil, and `open` is nil whenever the link started in a
state where a nil `swap` comes with a nil `open`. -/
theorem close_idempotent (l : link) :
    l.close.l.shutdown.ret = none
    ∧ l.close.l.close.tr = []
    ∧ oncloseCount l.close.l.close.tr = 0
    ∧ swapCloses l.close.l.close.tr = []
    ∧ closedConns l.close.l.close.tr = []
    ∧ l.close.l.close.l = l.close.l
    ∧ l.close.l.swap = none
    ∧ ((l.swap = none → l.open_ = none) → l.close.l.open_ = none) := by
  have hs : l.close.l.swap = none := by
    cases h : l.swap with
    | none => rw [link.close_of_swap_none l h]; exact h
    | some s => rw [link.close_of_swap_some l s h]
  have hc := link.close_of_swap_none _ hs
  refine ⟨?_, ?_, ?_, ?_, ?_, ?_, hs, ?_⟩
  · rw [link.shutdown_of_swap_none _ hs]
  · rw [hc]
  · rw [hc]; rfl
  · rw [hc]; rfl
  · rw [hc]; rfl
  · rw [hc]
  · intro hinv
    cases h : l.swap with
    | none => rw [link.close_of_swap_none l h]; exact hinv h
    | some s => rw [link.close_of_swap_some l s h]

/-- A live link with two open conns, closed once and then closed again. -/
theorem close_idempotent_witness :
    (sampleLive.swap = none →
      sampleLive.open_ = none)
    ∧ sampleLive.close.l.open_ = none :=
  ⟨by decide,
   (close_idempotent sampleLive).2.2.2.2.2.2.2 (by decide)⟩

/-- C2: close cascade.  On a live link (`swap` is `s`) whose open table is
`M`, `close` calls `onclose`, then `swap.Close`, then `Close` on the conn of
each entry of `M` and emits nothing else; so `onclose` runs exactly once, the
swap conn is closed exactly once, every conn has `Close` called as many times
as it occurs in `M` (exactly once when it is stored once, never when it is not
stored), and the link is left with `swap` nil and `open` nil. -/
theorem close_cascade (l : link) (s : swapConn) (M : connMap)
    (hs : l.swap = some s) (ho : l.open_ = some M) :
    l.close.tr = [Event.onclose (some s) (some M), Event.swapClose s]
        ++ (connMap.values M).map Event.connClose
    ∧ oncloseCount l.close.tr = 1
    ∧ swapCloses l.close.tr = [s]
    ∧ closedConns l.close.tr = connMap.values M
    ∧ (∀ c, (closedConns l.close.tr).count c = (connMap.values M).count c)
    ∧ (∀ c, (connMap.values M).count c = 1 → (closedConns l.close.tr).count c = 1)
    ∧ (∀ c, c ∉ connMap.values M → Event.connClose c ∉ l.close.tr)
    ∧ l.close.l.swap = none
    ∧ l.close.l.open_ = none
    ∧ l.close.l = { l with swap := none, open_ := none } := by
  have hc := link.close_of_swap_some l s hs
  have hconns : l.conns = connMap.values M := by simp [link.conns, ho]
  rw [hconns, ho] at hc
  have hcl : closedConns l.close.tr = connMap.values M := by
    rw [hc]
    simp [closedConns, closedConns_map_connClose]
  refine ⟨?_, ?_, ?_, hcl, ?_, ?_, ?_, ?_, ?_, ?_⟩
  · rw [hc]
  · rw [hc]; simp [oncloseCount, oncloseCount_map_connClose]
  · rw [hc]; simp [swapCloses, swapCloses_map_connClose]
  · intro c; rw [hcl]
  · intro c h; rw [hcl]; exact h
  · intro c hc1 hmem
    rw [hc] at hmem
    simp at hmem
    exact hc1 hmem
  · rw [hc]
  · rw [hc]
  · rw [hc]

/-- A live link with two open conns is closed. -/
theorem close_cascade_witness :
    sampleLive.close.tr
      = [Event.onclose (some ⟨3, 2⟩) (some [(4, ⟨4, 7⟩), (9, ⟨9, 7⟩)]),
         Event.swapClose ⟨3, 2⟩, Event.connClose ⟨4, 7⟩, Event.connClose ⟨9, 7⟩] :=
  (close_cascade sampleLive ⟨3, 2⟩ [(4, ⟨4, 7⟩), (9, ⟨9, 7⟩)] rfl rfl).1

/-! ## Opening a conn -/

/-- C3: `Open` success postcondition.  On a live link (`swap` is `s`, open
table `M`), when the id minted by `chooseConnID` is not in `M` and the codec
write succeeds, `Open` returns `(c, nil)` where `c` is the conn now stored in
the open table under that id; exactly one frame was written and it is
`openMsg` with that same id; every other id looks up to what it did before
(the table is `M` with the one new entry); and the link stays live. -/
theorem Open_success (l : link) (s : swapConn) (M : connMap)
    (rand : Nat → connID) (n : Nat)
    (hs : l.swap = some s) (ho : l.open_ = some M)
    (hfresh : connMap.get M (rand n) = none) :
    (l.Open rand n none).ret = Except.ok (makeConn (rand n) l)
    ∧ (makeConn (rand n) l).id = rand n
    ∧ (l.Open rand n none).l.lookup (rand n) = some (makeConn (rand n) l)
    ∧ (l.Open rand n none).tr = [Event.swapWrite s (Msg.openMsg (rand n)) none]
    ∧ framesWritten (l.Open rand n none).tr = [Msg.openMsg (rand n)]
    ∧ (∀ j, j ≠ rand n → (l.Open rand n none).l.lookup j = l.lookup j)
    ∧ (l.Open rand n none).l.open_ = some ((rand n, makeConn (rand n) l) :: M)
    ∧ (l.Open rand n none).l.swap = some s
    ∧ (l.Open rand n none).l
        = { l with open_ := some ((rand n, makeConn (rand n) l) :: M) }
    ∧ (l.Open rand n none).minted = n + 1 := by
  have hO : l.Open rand n none
      = ⟨Except.ok (makeConn (rand n) l),
         { l with open_ := some ((rand n, makeConn (rand n) l) :: M) },
         [Event.swapWrite s (Msg.openMsg (rand n)) none], n + 1⟩ := by
    simp only [link.Open, chooseConnID, link.add_fresh l M (rand n) ho hfresh]
    rw [link.Write_ok { l with open_ := some ((rand n, makeConn (rand n) l) :: M) } s _ hs]
    rfl
  rw [hO]
  refine ⟨rfl, rfl, ?_, rfl, rfl, ?_, rfl, hs, rfl, rfl⟩
  · simp [link.lookup, connMap.get]
  · intro j hj
    have hj2 : ¬ rand n = j := fun h => hj h.symm
    simp [link.lookup, connMap.get, ho, hj2]

/-- Conn id 5 is opened on the sample link. -/
theorem Open_success_witness :
    (sampleLive.Open (fun _ => 5) 0 none).ret = Except.ok ⟨5, 7⟩
    ∧ (sampleLive.Open (fun _ => 5) 0 none).l.open_
        = some [(5, ⟨5, 7⟩), (4, ⟨4, 7⟩), (9, ⟨9, 7⟩)] :=
  ⟨(Open_success sampleLive ⟨3, 2⟩ [(4, ⟨4, 7⟩), (9, ⟨9, 7⟩)] (fun _ => 5) 0
      rfl rfl rfl).1,
   (Open_success sampleLive ⟨3, 2⟩ [(4, ⟨4, 7⟩), (9, ⟨9, 7⟩)] (fun _ => 5) 0
      rfl rfl rfl).2.2.2.2.2.2.1⟩

/-- C4: failed `OpenMsg` write.  On a live link, when the minted id is fresh
and the codec write fails with `e`, `Open` returns the error `e` and no conn;
the conn that was just registered is dropped (the id no longer looks up to
anything and `Close` was called on the conn); and the link is closed: `swap`
is nil, `open` is nil, `onclose` ran once, and every conn that was open had
`Close` called. -/
theorem Open_write_fails (l : link) (s : swapConn) (M : connMap)
    (rand : Nat → connID) (n : Nat) (e : Error)
    (hs : l.swap = some s) (ho : l.open_ = some M)
    (hfresh : connMap.get M (rand n) = none) :
    (l.Open rand n (some e)).ret = Except.error e
    ∧ (l.Open rand n (some e)).l.lookup (rand n) = none
    ∧ Event.connClose (makeConn (rand n) l) ∈ (l.Open rand n (some e)).tr
    ∧ closedConns (l.Open rand n (some e)).tr
        = makeConn (rand n) l :: connMap.values M
    ∧ (l.Open rand n (some e)).l.swap = none
    ∧ (l.Open rand n (some e)).l.open_ = none
    ∧ oncloseCount (l.Open rand n (some e)).tr = 1
    ∧ swapCloses (l.Open rand n (some e)).tr = [s]
    ∧ (l.Open rand n (some e)).tr
        = [Event.swapWrite s (Msg.openMsg (rand n)) (some e),
           Event.onclose (some s) (some ((rand n, makeConn (rand n) l) :: M)),
           Event.swapClose s,
           Event.connClose (makeConn (rand n) l)]
          ++ (connMap.values M).map Event.connClose
    ∧ (l.Open rand n (some e)).l = { l with swap := none, open_ := none }
    ∧ (l.Open rand n (some e)).minted = n + 1 := by
  have hO : l.Open rand n (some e)
      = ⟨Except.error e, { l with swap := none, open_ := none },
         [Event.swapWrite s (Msg.openMsg (rand n)) (some e),
           Event.onclose (some s) (some ((rand n, makeConn (rand n) l) :: M)),
           Event.swapClose s,
           Event.connClose (makeConn (rand n) l)]
          ++ (connMap.values M).map Event.connClose, n + 1⟩ := by
    simp only [link.Open, chooseConnID, link.add_fresh l M (rand n) ho hfresh]
    rw [link.Write_fail { l with open_ := some ((rand n, makeConn (rand n) l) :: M) } s _ e hs]
    simp [link.conns, connMap.values]
  rw [hO]
  refine ⟨rfl, rfl, ?_, ?_, rfl, rfl, ?_, ?_, rfl, rfl, rfl⟩
  · simp
  · simp [closedConns, closedConns_map_connClose]
  · simp [oncloseCount, oncloseCount_map_connClose]
  · simp [swapCloses, swapCloses_map_connClose]

/-- Conn id 5 is opened on the sample link and the write fails. -/
theorem Open_write_fails_witness :
    (sampleLive.Open (fun _ => 5) 0 (some (Error.io 32))).ret
        = Except.error (Error.io 32)
    ∧ (sampleLive.Open (fun _ => 5) 0 (some (Error.io 32))).l = sampleClosed
    ∧ closedConns (sampleLive.Open (fun _ => 5) 0 (some (Error.io 32))).tr
        = [⟨5, 7⟩, ⟨4, 7⟩, ⟨9, 7⟩] :=
  ⟨(Open_write_fails sampleLive ⟨3, 2⟩ [(4, ⟨4, 7⟩), (9, ⟨9, 7⟩)] (fun _ => 5) 0
      (Error.io 32) rfl rfl rfl).1,
   (Open_write_fails sampleLive ⟨3, 2⟩ [(4, ⟨4, 7⟩), (9, ⟨9, 7⟩)] (fun _ => 5) 0
      (Error.io 32) rfl rfl rfl).2.2.2.2.2.2.2.2.2.1,
   (Open_write_fails sampleLive ⟨3, 2⟩ [(4, ⟨4, 7⟩), (9, ⟨9, 7⟩)] (fun _ => 5) 0
      (Error.io 32) rfl rfl rfl).2.2.2.1⟩

/-- C5: conn id collision on `Open`.  On a live link, when the id minted by
`chooseConnID` is already in the open table, `Open` returns the collision
error and the link stays healthy: the link is unchanged (`swap` still
non-nil, the open table the same, the id still mapped to the earlier conn),
nothing is written to the codec and `onclose` is not called.  In particular,
when the id source yields the same id for two consecutive `Open`s on a live
link and the first one succeeds, the second one returns the collision error
and leaves the link as the first one left it. -/
theorem Open_collision (l : link) (s : swapConn) (M : connMap)
    (rand : Nat → connID) (n : Nat) (werr : Option Error) (c0 : conn)
    (hs : l.swap = some s) (ho : l.open_ = some M)
    (hpresent : connMap.get M (rand n) = some c0) :
    ((l.Open rand n werr).ret = Except.error Error.errCollision
      ∧ (l.Open rand n werr).l = l
      ∧ (l.Open rand n werr).l.swap = some s
      ∧ (l.Open rand n werr).l.open_ = some M
      ∧ (l.Open rand n werr).l.lookup (rand n) = some c0
      ∧ (l.Open rand n werr).tr = [Event.log LogLine.connIdCollision]
      ∧ framesWritten (l.Open rand n werr).tr = []
      ∧ oncloseCount (l.Open rand n werr).tr = 0)
    ∧ (∀ (l0 : link) (M0 : connMap) (k : Nat), l0.swap = some s → l0.open_ = some M0 →
        connMap.get M0 (rand k) = none → rand (k + 1) = rand k →
        (l0.Open rand k none).ret = Except.ok (makeConn (rand k) l0)
        ∧ (l0.Open rand k none).minted = k + 1
        ∧ ((l0.Open rand k none).l.Open rand (k + 1) werr).ret
            = Except.error Error.errCollision
        ∧ ((l0.Open rand k none).l.Open rand (k + 1) werr).l = (l0.Open rand k none).l
        ∧ ((l0.Open rand k none).l.Open rand (k + 1) werr).l.swap = some s
        ∧ ((l0.Open rand k none).l.Open rand (k + 1) werr).l.lookup (rand k)
            = some (makeConn (rand k) l0)
        ∧ framesWritten ((l0.Open rand k none).l.Open rand (k + 1) werr).tr = []
        ∧ oncloseCount ((l0.Open rand k none).l.Open rand (k + 1) werr).tr = 0) := by
  constructor
  · rw [link.Open_of_present l M rand n werr c0 ho hpresent]
    refine ⟨rfl, rfl, hs, ho, ?_, rfl, rfl, rfl⟩
    simp [link.lookup, ho, hpresent]
  · intro l0 M0 k hs0 ho0 hfresh hsame
    rw [link.Open_of_fresh_ok l0 s M0 rand k hs0 ho0 hfresh]
    have hp : connMap.get ((rand k, makeConn (rand k) l0) :: M0) (rand (k + 1))
        = some (makeConn (rand k) l0) := by
      simp [connMap.get, hsame]
    rw [link.Open_of_present
      { l0 with open_ := some ((rand k, makeConn (rand k) l0) :: M0) }
      ((rand k, makeConn (rand k) l0) :: M0) rand (k + 1) werr _ rfl hp]
    refine ⟨rfl, rfl, rfl, rfl, hs0, ?_, rfl, rfl⟩
    simp [link.lookup, connMap.get]

/-- The sample link is asked to open conn id 9, which it already has. -/
theorem Open_collision_witness :
    (sampleLive.Open (fun _ => 9) 0 none).ret = Except.error Error.errCollision
    ∧ (sampleLive.Open (fun _ => 9) 0 none).l = sampleLive :=
  ⟨(Open_collision sampleLive ⟨3, 2⟩ [(4, ⟨4, 7⟩), (9, ⟨9, 7⟩)] (fun _ => 9) 0 none
      ⟨9, 7⟩ rfl rfl rfl).1.1,
   (Open_collision sampleLive ⟨3, 2⟩ [(4, ⟨4, 7⟩), (9, ⟨9, 7⟩)] (fun _ => 9) 0 none
      ⟨9, 7⟩ rfl rfl rfl).1.2.1⟩

/-- C6, as stated, fails: the sample link is live and its codec write would
succeed; the id source yields 4, which is in the open table, and then 5, which
is not.  `Open` draws one id only and returns the collision error, not a
conn. -/
theorem Open_retries_counterexample :
    sampleLive.swap = some ⟨3, 2⟩
    ∧ sampleLive.lookup 4 = some ⟨4, 7⟩
    ∧ sampleLive.lookup 5 = none
    ∧ (sampleLive.Open (fun k => 4 + k) 0 none).ret = Except.error Error.errCollision
    ∧ (¬ ∃ c, (sampleLive.Open (fun k => 4 + k) 0 none).ret = Except.ok c)
    ∧ (sampleLive.Open (fun k => 4 + k) 0 none).minted = 1 := by
  refine ⟨rfl, rfl, rfl, rfl, ?_, rfl⟩
  rintro ⟨c, hc⟩
  have h : (sampleLive.Open (fun k => 4 + k) 0 none).ret
      = Except.error Error.errCollision := rfl
  rw [h] at hc
  cases hc

/-- C6, amended: `Open` does not retry.  On a live link whose codec write
succeeds, `Open` draws exactly one id; when that id is already in the open
table it returns the collision error, leaves the link unchanged and writes
nothing; when that id is not in the table it returns the conn registered under
that id. -/
theorem Open_no_retry (l : link) (s : swapConn) (M : connMap)
    (rand : Nat → connID) (n : Nat)
    (hs : l.swap = some s) (ho : l.open_ = some M) :
    (l.Open rand n none).minted = n + 1
    ∧ (connMap.get M (rand n) ≠ none →
        (l.Open rand n none).ret = Except.error Error.errCollision
        ∧ (l.Open rand n none).l = l
        ∧ framesWritten (l.Open rand n none).tr = [])
    ∧ (connMap.get M (rand n) = none →
        (l.Open rand n none).ret = Except.ok (makeConn (rand n) l)
        ∧ (makeConn (rand n) l).id = rand n
        ∧ (l.Open rand n none).l.lookup (rand n) = some (makeConn (rand n) l)) := by
  cases hg : connMap.get M (rand n) with
  | none =>
    rw [link.Open_of_fresh_ok l s M rand n hs ho hg]
    refine ⟨rfl, fun h => absurd rfl h, fun _ => ⟨rfl, rfl, ?_⟩⟩
    simp [link.lookup, connMap.get]
  | some c0 =>
    rw [link.Open_of_present l M rand n none c0 ho hg]
    refine ⟨rfl, fun _ => ⟨rfl, rfl, rfl⟩, fun h => ?_⟩
    cases h

/-- The sample link draws id 4, which it already has, and does not go on to
id 5. -/
theorem Open_no_retry_witness :
    (sampleLive.Open (fun k => 4 + k) 0 none).minted = 1
    ∧ (sampleLive.Open (fun k => 4 + k) 0 none).ret = Except.error Error.errCollision :=
  ⟨(Open_no_retry sampleLive ⟨3, 2⟩ [(4, ⟨4, 7⟩), (9, ⟨9, 7⟩)] (fun k => 4 + k) 0
      rfl rfl).1,
   ((Open_no_retry sampleLive ⟨3, 2⟩ [(4, ⟨4, 7⟩), (9, ⟨9, 7⟩)] (fun k => 4 + k) 0
      rfl rfl).2.1 (by decide)).1⟩

/-! ## The closed link -/

/-- C8: a codec IO error closes the link.  On a live link, when `swap.Write`
fails with `e` inside `link.Write`, `Write` returns exactly `e` and the link
is closed; when `swap.Read` fails inside the read loop, the link is closed and
the read loop returns, whatever reads might still come.  Closed means: `swap`
is nil, `open` is nil, `onclose` ran exactly once, and `Close` was called on
the conn of every entry that was in the open table.  When `swap.Write`
succeeds, `Write` returns nil and leaves the link, hence `swap` and the open
table, unchanged. -/
theorem codec_error_closes_link (l : link) (s : swapConn) (payload : Msg) (e : Error)
    (rest : List (Except Error Msg)) (hs : l.swap = some s) :
    ((l.Write payload (some e)).ret = some e
      ∧ (l.Write payload (some e)).l.swap = none
      ∧ (l.Write payload (some e)).l.open_ = none
      ∧ oncloseCount (l.Write payload (some e)).tr = 1
      ∧ closedConns (l.Write payload (some e)).tr = l.conns)
    ∧ ((l.readLoopIter (Except.error e)).ret = false
      ∧ (l.readLoop (Except.error e :: rest)).ret = false
      ∧ (l.readLoop (Except.error e :: rest)).l = (l.readLoopIter (Except.error e)).l
      ∧ (l.readLoop (Except.error e :: rest)).tr = (l.readLoopIter (Except.error e)).tr
      ∧ (l.readLoopIter (Except.error e)).l.swap = none
      ∧ (l.readLoopIter (Except.error e)).l.open_ = none
      ∧ oncloseCount (l.readLoopIter (Except.error e)).tr = 1
      ∧ closedConns (l.readLoopIter (Except.error e)).tr = l.conns)
    ∧ ((l.Write payload none).ret = none
      ∧ (l.Write payload none).l = l
      ∧ (l.Write payload none).l.swap = l.swap
      ∧ (l.Write payload none).l.open_ = l.open_
      ∧ framesWritten (l.Write payload none).tr = [payload]) := by
  have hR : l.readLoopIter (Except.error e)
      = ⟨false, { l with swap := none, open_ := none },
          Event.log (LogLine.corruptMsg l.addr e)
            :: ([Event.onclose (some s) l.open_, Event.swapClose s]
                  ++ l.conns.map Event.connClose)⟩ := by
    simp [link.readLoopIter, hs, link.close_of_swap_some l s hs]
  have hL : l.readLoop (Except.error e :: rest) = l.readLoopIter (Except.error e) := by
    simp [link.readLoop, hR]
  rw [hL, hR, link.Write_fail l s payload e hs, link.Write_ok l s payload hs]
  refine ⟨⟨rfl, rfl, rfl, ?_, ?_⟩, ⟨rfl, rfl, rfl, rfl, rfl, rfl, ?_, ?_⟩,
    ⟨rfl, rfl, rfl, rfl, rfl⟩⟩
  · simp [oncloseCount, oncloseCount_map_connClose]
  · simp [closedConns, closedConns_map_connClose]
  · simp [oncloseCount, oncloseCount_map_connClose]
  · simp [closedConns, closedConns_map_connClose]

/-- A write and a read fail on the sample link. -/
theorem codec_error_closes_link_witness :
    (sampleLive.Write (Msg.connMsg 4 [1, 2]) (some (Error.io 32))).ret
        = some (Error.io 32)
    ∧ closedConns (sampleLive.readLoopIter (Except.error (Error.io 32))).tr
        = sampleLive.conns :=
  ⟨(codec_error_closes_link sampleLive ⟨3, 2⟩ (Msg.connMsg 4 [1, 2]) (Error.io 32)
      [] rfl).1.1,
   (codec_error_closes_link sampleLive ⟨3, 2⟩ (Msg.connMsg 4 [1, 2]) (Error.io 32)
      [] rfl).2.1.2.2.2.2.2.2.2⟩

/-! ## The state invariant -/

/-- C9: link state invariant.  In every state reachable from `makeLink` by
any sequence of `close`, `shutdown`, `Open`, `add`, `lookup`, `drop`, `Write`,
read-loop dispatch and read-loop iteration steps (and `conn.Close` calls), a
nil `swap` implies a nil `open` (and conversely a live link has a non-nil
open table); and closing is one-way: from a reachable state with `swap` nil
no call, and no sequence of calls, leads to a state with `swap` non-nil or
with a non-nil open table. -/
theorem link_invariant (l : link) (h : Reachable l) :
    (l.swap = none → l.open_ = none)
    ∧ (l.open_ = none → l.swap = none)
    ∧ (∀ op : Op, l.swap = none →
        (op.apply l).swap = none ∧ (op.apply l).open_ = none)
    ∧ (∀ ops : List Op, l.swap = none →
        (run ops l).swap = none ∧ (run ops l).open_ = none) := by
  obtain ⟨self, a, g, ach, pipelining, ops0, rfl⟩ := h
  have hstep := run_stepsTo ops0 (makeLink self a g ach pipelining)
  have hwf : (run ops0 (makeLink self a g ach pipelining)).swap = none
      ↔ (run ops0 (makeLink self a g ach pipelining)).open_ = none := by
    rcases hstep with ⟨h1, h2⟩ | ⟨h1, h2⟩
    · rw [h1, h2]; simp [makeLink]
    · simp [h1, h2]
  refine ⟨hwf.mp, hwf.mpr, ?_, ?_⟩
  · intro op hs
    exact link.stepsTo_closed _ _ (Op.apply_stepsTo op _) hs (hwf.mp hs)
  · intro ops hs
    exact link.stepsTo_closed _ _ (run_stepsTo ops _) hs (hwf.mp hs)

/-- A link is made, a conn is added, the link is closed; an `Open` after that
leaves it closed. -/
theorem link_invariant_witness :
    Reachable (run [Op.add 4, Op.close] (makeLink 7 1 3 [] 2))
    ∧ (run [Op.add 4, Op.close] (makeLink 7 1 3 [] 2)).swap = none
    ∧ ((Op.Open 5 none).apply (run [Op.add 4, Op.close] (makeLink 7 1 3 [] 2))).swap
        = none
    ∧ ((Op.Open 5 none).apply (run [Op.add 4, Op.close] (makeLink 7 1 3 [] 2))).open_
        = none :=
  ⟨⟨7, 1, 3, [], 2, [Op.add 4, Op.close], rfl⟩, by decide,
   ((link_invariant (run [Op.add 4, Op.close] (makeLink 7 1 3 [] 2))
      ⟨7, 1, 3, [], 2, [Op.add 4, Op.close], rfl⟩).2.2.1 (Op.Open 5 none)
      (by decide)).1,
   ((link_invariant (run [Op.add 4, Op.close] (makeLink 7 1 3 [] 2))
      ⟨7, 1, 3, [], 2, [Op.add 4, Op.close], rfl⟩).2.2.1 (Op.Open 5 none)
      (by decide)).2⟩

/-! ## Demultiplexing -/

/-- C10: read-loop demultiplexing of data frames.  For every link state and
every `connMsg` with id `id` and payload `p`: when `id` is in the open table,
`p` is handed by `sendRead` to exactly the conn stored under `id`, once, and
to no other conn; when `id` is absent, or the link is closed, the frame is
dropped silently: nothing is delivered and no event is emitted.  In every
case the link (open table, `swap`, accept channel) is unchanged and the loop
goes on.  On a live link the iteration of the read loop that reads the frame
does exactly this. -/
theorem dispatch_connMsg (l : link) (id : connID) (p : Payload) :
    (l.dispatch (Msg.connMsg id p)).ret = true
    ∧ (l.dispatch (Msg.connMsg id p)).l = l
    ∧ (l.dispatch (Msg.connMsg id p)).l.open_ = l.open_
    ∧ (l.dispatch (Msg.connMsg id p)).l.swap = l.swap
    ∧ (l.dispatch (Msg.connMsg id p)).l.ach = l.ach
    ∧ (∀ c, l.lookup id = some c →
        (l.dispatch (Msg.connMsg id p)).tr = [Event.sendRead c p]
        ∧ deliveries (l.dispatch (Msg.connMsg id p)).tr = [(c, p)]
        ∧ (∀ c2 q, c2 ≠ c →
            Event.sendRead c2 q ∉ (l.dispatch (Msg.connMsg id p)).tr))
    ∧ (l.lookup id = none →
        (l.dispatch (Msg.connMsg id p)).tr = []
        ∧ deliveries (l.dispatch (Msg.connMsg id p)).tr = [])
    ∧ (l.open_ = none →
        (l.dispatch (Msg.connMsg id p)).tr = []
        ∧ deliveries (l.dispatch (Msg.connMsg id p)).tr = [])
    ∧ (l.swap ≠ none →
        (l.readLoopIter (Except.ok (Msg.connMsg id p))).ret
            = (l.dispatch (Msg.connMsg id p)).ret
        ∧ (l.readLoopIter (Except.ok (Msg.connMsg id p))).l
            = (l.dispatch (Msg.connMsg id p)).l
        ∧ (l.readLoopIter (Except.ok (Msg.connMsg id p))).tr
            = (l.dispatch (Msg.connMsg id p)).tr) := by
  have hnone : l.lookup id = none →
      l.dispatch (Msg.connMsg id p) = ⟨true, l, []⟩ := by
    intro h; simp [link.dispatch, h]
  have hsome : ∀ c, l.lookup id = some c →
      l.dispatch (Msg.connMsg id p) = ⟨true, l, [Event.sendRead c p]⟩ := by
    intro c h; simp [link.dispatch, h]
  have hl : (l.dispatch (Msg.connMsg id p)).ret = true
      ∧ (l.dispatch (Msg.connMsg id p)).l = l := by
    cases h : l.lookup id with
    | none => rw [hnone h]; exact ⟨rfl, rfl⟩
    | some c => rw [hsome c h]; exact ⟨rfl, rfl⟩
  refine ⟨hl.1, hl.2, by rw [hl.2], by rw [hl.2], by rw [hl.2], ?_, ?_, ?_, ?_⟩
  · intro c h
    rw [hsome c h]
    refine ⟨rfl, rfl, ?_⟩
    intro c2 q hne hmem
    simp at hmem
    exact hne hmem.1
  · intro h
    rw [hnone h]
    exact ⟨rfl, rfl⟩
  · intro h
    have hlk : l.lookup id = none := by simp [link.lookup, h]
    rw [hnone hlk]
    exact ⟨rfl, rfl⟩
  · intro hs
    cases hsw : l.swap with
    | none => exact absurd hsw hs
    | some s => simp [link.readLoopIter, hsw]

/-- The sample link receives a data frame for conn 9, and one for the unknown
conn 5. -/
theorem dispatch_connMsg_witness :
    (sampleLive.dispatch (Msg.connMsg 9 [1, 2])).tr = [Event.sendRead ⟨9, 7⟩ [1, 2]]
    ∧ (sampleLive.dispatch (Msg.connMsg 5 [1, 2])).tr = []
    ∧ (sampleClosed.dispatch (Msg.connMsg 9 [1, 2])).tr = []
    ∧ (sampleLive.readLoopIter (Except.ok (Msg.connMsg 9 [1, 2]))).tr
        = (sampleLive.dispatch (Msg.connMsg 9 [1, 2])).tr :=
  ⟨((dispatch_connMsg sampleLive 9 [1, 2]).2.2.2.2.2.1 ⟨9, 7⟩ rfl).1,
   ((dispatch_connMsg sampleLive 5 [1, 2]).2.2.2.2.2.2.1 rfl).1,
   ((dispatch_connMsg sampleClosed 9 [1, 2]).2.2.2.2.2.2.2.1 rfl).1,
   ((dispatch_connMsg sampleLive 9 [1, 2]).2.2.2.2.2.2.2.2 (by decide)).2.2⟩

/-! ## Inbound open requests and unknown frames -/

theorem link.dispatch_swap (l : link) (m : Msg) : (l.dispatch m).l.swap = l.swap := by
  cases m with
  | openMsg id =>
    cases ho : l.open_ with
    | none => simp [link.dispatch, link.add_closed l id ho]
    | some M =>
      cases hg : connMap.get M id with
      | none => simp [link.dispatch, link.add_fresh l M id ho hg]
      | some c0 => simp [link.dispatch, link.add_collision l M id c0 ho hg]
  | connMsg id p =>
    cases hl : l.lookup id <;> simp [link.dispatch, hl]
  | other tag => rfl

theorem link.readLoopIter_swap_of_continue (l : link) (rd : Except Error Msg)
    (h : (l.readLoopIter rd).ret = true) : (l.readLoopIter rd).l.swap = l.swap := by
  cases hs : l.swap with
  | none => simp [link.readLoopIter, hs] at h
  | some s =>
    cases rd with
    | error e => simp [link.readLoopIter, hs] at h
    | ok m =>
      have hd : l.readLoopIter (Except.ok m) = l.dispatch m := by
        simp [link.readLoopIter, hs]
      rw [hd, link.dispatch_swap, hs]

theorem link.readLoop_other (l : link) (s : swapConn) (tag : Nat)
    (post : List (Except Error Msg)) (hs : l.swap = some s) :
    l.readLoop (Except.ok (Msg.other tag) :: post) = l.readLoop post := by
  have hd : l.readLoopIter (Except.ok (Msg.other tag)) = ⟨true, l, []⟩ := by
    simp [link.readLoopIter, hs, link.dispatch]
  rw [link.readLoop, hd]
  simp

/-- C11: read-loop handling of an inbound `openMsg` with id `id`.  (a) When
the open table is non-nil and `id` is not in it, a new conn is registered
under `id`, exactly that conn is pushed, once, onto the accept channel, and
the loop goes on.  (b) When `id` is already in the open table the frame is
dropped: the link, hence the open table (`id` still maps to the earlier conn)
and the accept channel, is unchanged and the loop goes on.  (c) When the link
is closed (`add` returns `ErrEnd`) nothing is pushed, the link is unchanged
and the loop returns. -/
theorem dispatch_openMsg (l : link) (id : connID) :
    (∀ M, l.open_ = some M → connMap.get M id = none →
        (l.dispatch (Msg.openMsg id)).ret = true
        ∧ (l.dispatch (Msg.openMsg id)).l.lookup id = some (makeConn id l)
        ∧ (l.dispatch (Msg.openMsg id)).l.open_ = some ((id, makeConn id l) :: M)
        ∧ (l.dispatch (Msg.openMsg id)).l.ach = l.ach ++ [makeConn id l]
        ∧ (l.dispatch (Msg.openMsg id)).l.swap = l.swap
        ∧ (l.dispatch (Msg.openMsg id)).tr = [])
    ∧ (∀ M c0, l.open_ = some M → connMap.get M id = some c0 →
        (l.dispatch (Msg.openMsg id)).ret = true
        ∧ (l.dispatch (Msg.openMsg id)).l = l
        ∧ (l.dispatch (Msg.openMsg id)).l.open_ = some M
        ∧ (l.dispatch (Msg.openMsg id)).l.lookup id = some c0
        ∧ (l.dispatch (Msg.openMsg id)).l.ach = l.ach
        ∧ (l.dispatch (Msg.openMsg id)).tr
            = [Event.log LogLine.connIdCollision, Event.log LogLine.collisionUnlikely])
    ∧ (l.open_ = none →
        (l.add id).ret = Except.error Error.ErrEnd
        ∧ (l.dispatch (Msg.openMsg id)).ret = false
        ∧ (l.dispatch (Msg.openMsg id)).l = l
        ∧ (l.dispatch (Msg.openMsg id)).l.ach = l.ach
        ∧ (l.dispatch (Msg.openMsg id)).tr = []) := by
  refine ⟨?_, ?_, ?_⟩
  · intro M ho hg
    have hd : l.dispatch (Msg.openMsg id)
        = ⟨true, { l with open_ := some ((id, makeConn id l) :: M),
                          ach := l.ach ++ [makeConn id l] }, []⟩ := by
      simp [link.dispatch, link.add_fresh l M id ho hg]
    rw [hd]
    refine ⟨rfl, ?_, rfl, rfl, rfl, rfl⟩
    simp [link.lookup, connMap.get]
  · intro M c0 ho hg
    have hd : l.dispatch (Msg.openMsg id)
        = ⟨true, l, [Event.log LogLine.connIdCollision,
                     Event.log LogLine.collisionUnlikely]⟩ := by
      simp [link.dispatch, link.add_collision l M id c0 ho hg]
    rw [hd]
    refine ⟨rfl, rfl, ho, ?_, rfl, rfl⟩
    simp [link.lookup, ho, hg]
  · intro ho
    have hd : l.dispatch (Msg.openMsg id) = ⟨false, l, []⟩ := by
      simp [link.dispatch, link.add_closed l id ho]
    rw [hd, link.add_closed l id ho]
    exact ⟨rfl, rfl, rfl, rfl, rfl⟩

/-- The sample link receives open requests for the new id 5 and for the id 9
it already has; the closed sample link receives one too. -/
theorem dispatch_openMsg_witness :
    (sampleLive.dispatch (Msg.openMsg 5)).l.ach = [⟨5, 7⟩]
    ∧ (sampleLive.dispatch (Msg.openMsg 9)).l = sampleLive
    ∧ (sampleClosed.dispatch (Msg.openMsg 5)).ret = false :=
  ⟨((dispatch_openMsg sampleLive 5).1 [(4, ⟨4, 7⟩), (9, ⟨9, 7⟩)] rfl rfl).2.2.2.1,
   ((dispatch_openMsg sampleLive 9).2.1 [(4, ⟨4, 7⟩), (9, ⟨9, 7⟩)] ⟨9, 7⟩ rfl rfl).2.1,
   ((dispatch_openMsg sampleClosed 5).2.2 rfl).2.1⟩

/-- C12: forward compatibility.  For every link state, a frame that is
neither an `openMsg` nor a `connMsg` is dropped by the dispatch step: the link
(open table, `swap`, accept channel) is unchanged, no event is emitted, so no
conn receives a payload and the link is not closed, and the loop goes on.  On
a live link the iteration that reads such a frame does exactly this, and a
run of the read loop over any reads with such a frame among them ends as the
run over the same reads without it: same result, same link, same events. -/
theorem dispatch_unknown (l : link) (tag : Nat) :
    (l.dispatch (Msg.other tag)).ret = true
    ∧ (l.dispatch (Msg.other tag)).l = l
    ∧ (l.dispatch (Msg.other tag)).tr = []
    ∧ deliveries (l.dispatch (Msg.other tag)).tr = []
    ∧ oncloseCount (l.dispatch (Msg.other tag)).tr = 0
    ∧ (l.swap ≠ none →
        (l.readLoopIter (Except.ok (Msg.other tag))).ret = true
        ∧ (l.readLoopIter (Except.ok (Msg.other tag))).l = l
        ∧ (l.readLoopIter (Except.ok (Msg.other tag))).tr = [])
    ∧ (l.swap ≠ none → ∀ pre post : List (Except Error Msg),
        (l.readLoop (pre ++ Except.ok (Msg.other tag) :: post)).ret
            = (l.readLoop (pre ++ post)).ret
        ∧ (l.readLoop (pre ++ Except.ok (Msg.other tag) :: post)).l
            = (l.readLoop (pre ++ post)).l
        ∧ (l.readLoop (pre ++ Except.ok (Msg.other tag) :: post)).tr
            = (l.readLoop (pre ++ post)).tr) := by
  refine ⟨rfl, rfl, rfl, rfl, rfl, ?_, ?_⟩
  · intro hs
    cases hsw : l.swap with
    | none => exact absurd hsw hs
    | some s => simp [link.readLoopIter, hsw, link.dispatch]
  · intro hs pre post
    have key : ∀ (pre : List (Except Error Msg)) (l : link), l.swap ≠ none →
        l.readLoop (pre ++ Except.ok (Msg.other tag) :: post)
          = l.readLoop (pre ++ post) := by
      intro pre
      induction pre with
      | nil =>
        intro l hs
        cases hsw : l.swap with
        | none => exact absurd hsw hs
        | some s => exact link.readLoop_other l s tag post hsw
      | cons rd rest ih =>
        intro l hs
        simp only [List.cons_append, link.readLoop]
        cases hr : (l.readLoopIter rd).ret with
        | false => simp
        | true =>
          have hsw := link.readLoopIter_swap_of_continue l rd hr
          have hs2 : (l.readLoopIter rd).l.swap ≠ none := by rw [hsw]; exact hs
          simp [ih _ hs2]
    rw [key pre l hs]
    exact ⟨rfl, rfl, rfl⟩

/-- The sample link reads an unknown frame between two data frames. -/
theorem dispatch_unknown_witness :
    (sampleLive.readLoopIter (Except.ok (Msg.other 254))).l = sampleLive
    ∧ (sampleLive.readLoop ([Except.ok (Msg.connMsg 4 [1])]
          ++ Except.ok (Msg.other 254) :: [Except.ok (Msg.connMsg 9 [2])])).tr
        = (sampleLive.readLoop ([Except.ok (Msg.connMsg 4 [1])]
          ++ [Except.ok (Msg.connMsg 9 [2])])).tr :=
  ⟨((dispatch_unknown sampleLive 254).2.2.2.2.2.1 (by decide)).2.1,
   ((dispatch_unknown sampleLive 254).2.2.2.2.2.2 (by decide)
      [Except.ok (Msg.connMsg 4 [1])] [Except.ok (Msg.connMsg 9 [2])]).2.2⟩

/-! ## Ownership of the conn table -/

theorem connMap.mem_of_get (M : connMap) (id : connID) (c : conn)
    (h : connMap.get M id = some c) : (id, c) ∈ M := by
  induction M with
  | nil => cases h
  | cons e rest ih =>
    obtain ⟨k, c1⟩ := e
    by_cases hk : k = id
    · rw [connMap.get, if_pos hk] at h
      cases h
      rw [hk]
      exact List.mem_cons_self _ _
    · rw [connMap.get, if_neg hk] at h
      exact List.mem_cons_of_mem _ (ih h)

theorem link.tableStep_refl (l : link) : l.tableStep l :=
  ⟨rfl, fun M2 h => ⟨M2, h, fun _ _ hm => Or.inl hm⟩⟩

theorem link.tableStep_trans (a b c : link) (h1 : a.tableStep b) (h2 : b.tableStep c) :
    a.tableStep c := by
  refine ⟨h2.1.trans h1.1, ?_⟩
  intro M3 h3
  obtain ⟨M2, hb, hsub2⟩ := h2.2 M3 h3
  obtain ⟨M1, ha, hsub1⟩ := h1.2 M2 hb
  refine ⟨M1, ha, ?_⟩
  intro k cn hm
  rcases hsub2 k cn hm with h | h
  · exact hsub1 k cn h
  · right; rw [h, h1.1]

theorem link.tableStep_of_eq (l a b : link) (hself : b.self = a.self)
    (hopen : b.open_ = a.open_) (h : l.tableStep a) : l.tableStep b := by
  refine ⟨hself.trans h.1, ?_⟩
  intro M2 h2
  rw [hopen] at h2
  exact h.2 M2 h2

theorem link.tableStep_of_open_none (l l2 : link) (hself : l2.self = l.self)
    (ho : l2.open_ = none) : l.tableStep l2 := by
  refine ⟨hself, ?_⟩
  intro M2 h2
  rw [ho] at h2
  cases h2

theorem link.add_tableStep (l : link) (id : connID) : l.tableStep (l.add id).l := by
  cases ho : l.open_ with
  | none => rw [link.add_closed l id ho]; exact link.tableStep_refl l
  | some M =>
    cases hg : connMap.get M id with
    | some c0 => rw [link.add_collision l M id c0 ho hg]; exact link.tableStep_refl l
    | none =>
      rw [link.add_fresh l M id ho hg]
      refine ⟨rfl, ?_⟩
      intro M2 h2
      refine ⟨M, ho, ?_⟩
      intro k cn hm
      have h3 : (id, makeConn id l) :: M = M2 := by simpa using h2
      rw [← h3] at hm
      rcases List.mem_cons.mp hm with h | h
      · right
        cases h
        rfl
      · exact Or.inl h

theorem link.drop_tableStep (l : link) (id : connID) : l.tableStep (l.drop id) := by
  cases ho : l.open_ with
  | none =>
    have h : l.drop id = l := by simp [link.drop, ho]
    rw [h]; exact link.tableStep_refl l
  | some M =>
    have h : l.drop id = { l with open_ := some (connMap.delete M id) } := by
      simp [link.drop, ho]
    rw [h]
    refine ⟨rfl, ?_⟩
    intro M2 h2
    refine ⟨M, ho, ?_⟩
    intro k cn hm
    have h3 : connMap.delete M id = M2 := by simpa using h2
    rw [← h3, connMap.delete] at hm
    exact Or.inl (List.mem_of_mem_filter hm)

theorem conn.Close_tableStep (c : conn) (l : link) : l.tableStep (conn.Close c l) := by
  unfold conn.Close
  split
  · exact link.drop_tableStep l c.id
  · exact link.tableStep_refl l

theorem link.shutdown_tableStep (l : link) : l.tableStep l.shutdown.l := by
  cases hs : l.swap with
  | none => rw [link.shutdown_of_swap_none l hs]; exact link.tableStep_refl l
  | some s =>
    have h : l.shutdown.l = { l with swap := none, open_ := none } := by
      simp [link.shutdown, hs]
    rw [h]
    exact link.tableStep_of_open_none _ _ rfl rfl

theorem link.close_tableStep (l : link) : l.tableStep l.close.l := by
  cases hs : l.swap with
  | none => rw [link.close_of_swap_none l hs]; exact link.tableStep_refl l
  | some s =>
    rw [link.close_of_swap_some l s hs]
    exact link.tableStep_of_open_none _ _ rfl rfl

theorem link.Write_tableStep (l : link) (m : Msg) (werr : Option Error) :
    l.tableStep (l.Write m werr).l := by
  cases hs : l.swap with
  | none => rw [link.Write_closed l m werr hs]; exact link.tableStep_refl l
  | some s =>
    cases werr with
    | none => rw [link.Write_ok l s m hs]; exact link.tableStep_refl l
    | some e =>
      rw [link.Write_fail l s m e hs]
      exact link.tableStep_of_open_none _ _ rfl rfl

theorem link.Open_tableStep (l : link) (rand : Nat → connID) (n : Nat)
    (werr : Option Error) : l.tableStep (l.Open rand n werr).l := by
  have ha := link.add_tableStep l (rand n)
  have hw := link.Write_tableStep (l.add (rand n)).l (Msg.openMsg (rand n)) werr
  have hboth := link.tableStep_trans _ _ _ ha hw
  simp only [link.Open, chooseConnID]
  split
  · exact ha
  · split
    · exact hboth
    · exact hboth

theorem link.dispatch_tableStep (l : link) (m : Msg) : l.tableStep (l.dispatch m).l := by
  cases m with
  | openMsg id =>
    have ha := link.add_tableStep l id
    simp only [link.dispatch]
    split
    · exact link.tableStep_of_eq l _ _ rfl rfl ha
    · exact ha
    · exact ha
    · exact ha
  | connMsg id p =>
    simp only [link.dispatch]
    split
    · exact link.tableStep_refl l
    · exact link.tableStep_refl l
  | other tag => exact link.tableStep_refl l

theorem link.readLoopIter_tableStep (l : link) (rd : Except Error Msg) :
    l.tableStep (l.readLoopIter rd).l := by
  cases hs : l.swap with
  | none =>
    have h : l.readLoopIter rd = ⟨false, l, []⟩ := by simp [link.readLoopIter, hs]
    rw [h]; exact link.tableStep_refl l
  | some s =>
    cases rd with
    | error e =>
      have h : (l.readLoopIter (Except.error e)).l = l.close.l := by
        simp [link.readLoopIter, hs]
      rw [h]; exact link.close_tableStep l
    | ok m =>
      have h : l.readLoopIter (Except.ok m) = l.dispatch m := by
        simp [link.readLoopIter, hs]
      rw [h]; exact link.dispatch_tableStep l m

theorem Op.apply_tableStep (op : Op) (l : link) : l.tableStep (op.apply l) := by
  cases op with
  | close => exact link.close_tableStep l
  | shutdown => exact link.shutdown_tableStep l
  | Open id werr => exact link.Open_tableStep l _ 0 werr
  | add id => exact link.add_tableStep l id
  | lookup id => exact link.tableStep_refl l
  | drop id => exact link.drop_tableStep l id
  | Write payload werr => exact link.Write_tableStep l payload werr
  | dispatch m => exact link.dispatch_tableStep l m
  | readLoopIter rd => exact link.readLoopIter_tableStep l rd
  | connClose c => exact conn.Close_tableStep c l

theorem run_tableStep (ops : List Op) (l : link) : l.tableStep (run ops l) := by
  induction ops generalizing l with
  | nil => exact link.tableStep_refl l
  | cons op rest ih =>
    exact link.tableStep_trans _ _ _ (Op.apply_tableStep op l) (ih (op.apply l))

theorem link.tableOwned_of_tableStep (l l2 : link) (h : l.tableStep l2)
    (ho : l.tableOwned) : l2.tableOwned := by
  intro M2 h2 k c hm
  obtain ⟨M, hM, hsub⟩ := h.2 M2 h2
  rcases hsub k c hm with hin | heq
  · rw [h.1]; exact ho M hM k c hin
  · rw [heq, h.1]; exact ⟨rfl, rfl⟩

/-- C13: conn-table ownership invariant.  In every state reachable from
`makeLink` by `Open`, `add`, `drop`, `close` and read-loop dispatch (and the
other calls on a link), every entry `id -> c` of the open table has
`c.id == id` and has this link as the parent of `c`; so whatever `lookup(id)`
returns is a conn with that id and this parent. -/
theorem table_ownership (l : link) (h : Reachable l) :
    l.tableOwned
    ∧ (∀ M, l.open_ = some M → ∀ k c, (k, c) ∈ M → c.id = k ∧ c.l = l.self)
    ∧ (∀ id c, l.lookup id = some c → c.id = id ∧ c.l = l.self) := by
  obtain ⟨self, a, g, ach, pipelining, ops0, rfl⟩ := h
  have h0 : (makeLink self a g ach pipelining).tableOwned := by
    intro M hM k c hm
    have hempty : M = [] := by
      simp only [makeLink, Option.some.injEq] at hM
      exact hM.symm
    rw [hempty] at hm
    cases hm
  have hown := link.tableOwned_of_tableStep _ _
    (run_tableStep ops0 (makeLink self a g ach pipelining)) h0
  refine ⟨hown, hown, ?_⟩
  intro id c hl
  cases ho : (run ops0 (makeLink self a g ach pipelining)).open_ with
  | none => simp [link.lookup, ho] at hl
  | some M =>
    have hg : connMap.get M id = some c := by simpa [link.lookup, ho] using hl
    exact hown M ho id c (connMap.mem_of_get M id c hg)

/-- A link is made at address 7; conn 4 is added, conn 5 arrives in an open
request, conn 4 is dropped. -/
theorem table_ownership_witness :
    Reachable (run [Op.add 4, Op.dispatch (Msg.openMsg 5), Op.drop 4]
      (makeLink 7 1 3 [] 2))
    ∧ (run [Op.add 4, Op.dispatch (Msg.openMsg 5), Op.drop 4]
        (makeLink 7 1 3 [] 2)).lookup 5 = some ⟨5, 7⟩
    ∧ (⟨5, 7⟩ : conn).id = 5
    ∧ (⟨5, 7⟩ : conn).l
        = (run [Op.add 4, Op.dispatch (Msg.openMsg 5), Op.drop 4]
            (makeLink 7 1 3 [] 2)).self :=
  ⟨⟨7, 1, 3, [], 2, [Op.add 4, Op.dispatch (Msg.openMsg 5), Op.drop 4], rfl⟩,
   by decide,
   ((table_ownership _
      ⟨7, 1, 3, [], 2, [Op.add 4, Op.dispatch (Msg.openMsg 5), Op.drop 4], rfl⟩).2.2
      5 ⟨5, 7⟩ (by decide)).1,
   ((table_ownership _
      ⟨7, 1, 3, [], 2, [Op.add 4, Op.dispatch (Msg.openMsg 5), Op.drop 4], rfl⟩).2.2
      5 ⟨5, 7⟩ (by decide)).2⟩

/-! ## Order of effects in shutdown -/

/-- C15, as stated, fails: when the sample link is closed the first event is
the `onclose` callback, and it runs while `swap` is still non-nil and the open
table still holds both conns; no `onclose` call observes a nil `swap` and a
cleared table. -/
theorem shutdown_order_counterexample :
    sampleLive.swap = some ⟨3, 2⟩
    ∧ sampleLive.close.tr.head?
        = some (Event.onclose (some ⟨3, 2⟩) (some [(4, ⟨4, 7⟩), (9, ⟨9, 7⟩)]))
    ∧ Event.onclose none none ∉ sampleLive.close.tr
    ∧ Event.onclose none (some []) ∉ sampleLive.close.tr := by
  decide

/-- C15, amended: order of effects when a live link (`swap` is `s`, open
table `M`) is closed.  The `onclose` callback runs first and observes `swap`
still non-nil and the open table still `M`; then the swap conn is closed,
`swap` is set to nil and the open table is snapshotted (`shutdown` returns
`M`) and cleared; only after that, on the link with `swap` nil and `open`
nil, are the conns of the snapshot closed. -/
theorem shutdown_order (l : link) (s : swapConn) (M : connMap)
    (hs : l.swap = some s) (ho : l.open_ = some M) :
    l.shutdown.tr = [Event.onclose (some s) (some M), Event.swapClose s]
    ∧ l.shutdown.ret = some M
    ∧ l.shutdown.l.swap = none
    ∧ l.shutdown.l.open_ = none
    ∧ l.close.tr = l.shutdown.tr ++ (closeConns M l.shutdown.l).2
    ∧ (closeConns M l.shutdown.l).2 = (connMap.values M).map Event.connClose
    ∧ l.close.tr.head? = some (Event.onclose (some s) (some M))
    ∧ (∀ sw op, Event.onclose sw op ∈ l.close.tr → sw = some s ∧ op = some M) := by
  have hsh : l.shutdown
      = ⟨some M, { l with swap := none, open_ := none },
          [Event.onclose (some s) (some M), Event.swapClose s]⟩ := by
    simp [link.shutdown, hs, ho]
  have hcc := closeConns_of_open_none M { l with swap := none, open_ := none } rfl
  have hcl : l.close.tr = [Event.onclose (some s) (some M), Event.swapClose s]
      ++ (connMap.values M).map Event.connClose := by
    rw [link.close_of_swap_some l s hs]
    simp [link.conns, ho]
  rw [hcl, hsh, hcc]
  refine ⟨rfl, rfl, rfl, rfl, rfl, rfl, rfl, ?_⟩
  intro sw op hmem
  simp at hmem
  exact hmem

/-- The sample link is shut down. -/
theorem shutdown_order_witness :
    sampleLive.shutdown.tr
        = [Event.onclose (some ⟨3, 2⟩) (some [(4, ⟨4, 7⟩), (9, ⟨9, 7⟩)]),
           Event.swapClose ⟨3, 2⟩]
    ∧ sampleLive.shutdown.l.swap = none :=
  ⟨(shutdown_order sampleLive ⟨3, 2⟩ [(4, ⟨4, 7⟩), (9, ⟨9, 7⟩)] rfl rfl).1,
   (shutdown_order sampleLive ⟨3, 2⟩ [(4, ⟨4, 7⟩), (9, ⟨9, 7⟩)] rfl rfl).2.2.1⟩

/-! ## The conn table as a finite map -/

theorem connMap.delete_delete (M : connMap) (id : connID) :
    connMap.delete (connMap.delete M id) id = connMap.delete M id :=
  connMap.delete_of_get_none _ id (connMap.get_delete_self M id)

/-- C16: the conn table behaves as a finite map.  After a successful
`add(id)` returning `c`, `lookup(id)` returns `c`; after `drop(id)`,
`lookup(id)` returns nil; `add(id)` and `drop(id)` never change `lookup(j)`
for `j != id`; `drop` is idempotent; `add(id)` followed by `drop(id)` on a
table that does not contain `id` restores the original link; and on a closed
link (`open` nil) `add` returns `ErrEnd`, `lookup` returns nil and `drop` is a
no-op that leaves `open` nil. -/
theorem table_finite_map (l : link) (id : connID) :
    (∀ c, (l.add id).ret = Except.ok c → (l.add id).l.lookup id = some c)
    ∧ (l.drop id).lookup id = none
    ∧ (∀ j, j ≠ id → (l.add id).l.lookup j = l.lookup j)
    ∧ (∀ j, j ≠ id → (l.drop id).lookup j = l.lookup j)
    ∧ (l.drop id).drop id = l.drop id
    ∧ (l.lookup id = none → (l.add id).l.drop id = l)
    ∧ (l.open_ = none →
        (l.add id).ret = Except.error Error.ErrEnd
        ∧ l.lookup id = none
        ∧ l.drop id = l
        ∧ (l.drop id).open_ = none) := by
  cases ho : l.open_ with
  | none =>
    have hd : l.drop id = l := by simp [link.drop, ho]
    have hl : ∀ j, l.lookup j = none := by intro j; simp [link.lookup, ho]
    rw [link.add_closed l id ho]
    refine ⟨?_, ?_, fun _ _ => rfl, ?_, ?_, fun _ => hd, fun _ => ?_⟩
    · intro c hc; cases hc
    · rw [hd]; exact hl id
    · intro j _; rw [hd]
    · rw [hd]; exact hd
    · exact ⟨rfl, hl id, hd, by rw [hd]; exact ho⟩
  | some M =>
    have hd : l.drop id = { l with open_ := some (connMap.delete M id) } := by
      simp [link.drop, ho]
    have hdd : (l.drop id).drop id = l.drop id := by
      rw [hd]
      simp [link.drop, connMap.delete_delete]
    refine ⟨?_, ?_, ?_, ?_, hdd, ?_, ?_⟩
    · intro c hc
      cases hg : connMap.get M id with
      | some c0 =>
        rw [link.add_collision l M id c0 ho hg] at hc
        cases hc
      | none =>
        rw [link.add_fresh l M id ho hg] at hc ⊢
        cases hc
        simp [link.lookup, connMap.get]
    · rw [hd]
      simp [link.lookup, connMap.get_delete_self]
    · intro j hj
      have hj2 : ¬ id = j := fun h => hj h.symm
      cases hg : connMap.get M id with
      | some c0 => rw [link.add_collision l M id c0 ho hg]
      | none =>
        rw [link.add_fresh l M id ho hg]
        simp [link.lookup, connMap.get, ho, hj2]
    · intro j hj
      rw [hd]
      simp [link.lookup, ho, connMap.get_delete_other M id j hj]
    · intro hl
      have hg : connMap.get M id = none := by simpa [link.lookup, ho] using hl
      rw [link.add_fresh l M id ho hg]
      have hdel : connMap.delete ((id, makeConn id l) :: M) id = M := by
        rw [connMap.delete_cons, if_pos rfl]
        exact connMap.delete_of_get_none M id hg
      simp only [link.drop, hdel]
      cases l
      simp_all
    · intro h
      cases h

/-- Conn 5 is added to the sample link and dropped again; conn 9 is dropped;
the closed sample link refuses an `add`. -/
theorem table_finite_map_witness :
    (sampleLive.add 5).l.lookup 5 = some ⟨5, 7⟩
    ∧ (sampleLive.add 5).l.lookup 9 = sampleLive.lookup 9
    ∧ (sampleLive.drop 9).lookup 4 = sampleLive.lookup 4
    ∧ (sampleLive.add 5).l.drop 5 = sampleLive
    ∧ (sampleClosed.add 5).ret = Except.error Error.ErrEnd :=
  ⟨(table_finite_map sampleLive 5).1 ⟨5, 7⟩ rfl,
   (table_finite_map sampleLive 5).2.2.1 9 (by decide),
   (table_finite_map sampleLive 9).2.2.2.1 4 (by decide),
   (table_finite_map sampleLive 5).2.2.2.2.2.1 rfl,
   ((table_finite_map sampleClosed 5).2.2.2.2.2.2 rfl).1⟩

end transport

/-! Big-endian integer helpers: theorems. -/

namespace kafka

theorem uint64Bytes_eq (v : Nat) :
    uint64Bytes v = [v / 2 ^ 56 % 256, v / 2 ^ 48 % 256, v / 2 ^ 40 % 256,
      v / 2 ^ 32 % 256, v / 2 ^ 24 % 256, v / 2 ^ 16 % 256, v / 2 ^ 8 % 256, v % 256] := by
  simp [uint64Bytes, PutUint64, make, byte]

theorem uint32Bytes_eq (v : Nat) :
    uint32Bytes v = [v / 2 ^ 24 % 256, v / 2 ^ 16 % 256, v / 2 ^ 8 % 256, v % 256] := by
  simp [uint32Bytes, PutUint32, make, byte]

theorem uint16Bytes_eq (v : Nat) :
    PutUint16 (make 2) v = [v / 2 ^ 8 % 256, v % 256] := by
  simp [PutUint16, make, byte]

theorem bytesUint64_uint64Bytes (v : Nat) (h : v < 2 ^ 64) :
    bytesUint64 (uint64Bytes v) = some v := by
  rw [uint64Bytes_eq]
  simp only [bytesUint64, Uint64, Option.some.injEq]
  omega

theorem bytesUint32_uint32Bytes (v : Nat) (h : v < 2 ^ 32) :
    bytesUint32 (uint32Bytes v) = some v := by
  rw [uint32Bytes_eq]
  simp only [bytesUint32, Uint32, Option.some.injEq]
  omega

theorem Uint16_PutUint16 (v : Nat) (h : v < 2 ^ 16) :
    Uint16 (PutUint16 (make 2) v) = some v := by
  rw [uint16Bytes_eq]
  simp only [Uint16, Option.some.injEq]
  omega

theorem uint64_lt (v : Int) : uint64 v < 2 ^ 64 := by
  unfold uint64; omega

theorem uint32_lt (v : Int) : uint32 v < 2 ^ 32 := by
  unfold uint32; omega

theorem uint16_lt (v : Int) : uint16 v < 2 ^ 16 := by
  unfold uint16; omega

theorem int64_uint64 (v : Int) (h1 : -2 ^ 63 ≤ v) (h2 : v < 2 ^ 63) :
    int64 (uint64 v) = v := by
  unfold int64 uint64
  split <;> omega

theorem int32_uint32 (v : Int) (h1 : -2 ^ 31 ≤ v) (h2 : v < 2 ^ 31) :
    int32 (uint32 v) = v := by
  unfold int32 uint32
  split <;> omega

theorem int16_uint16 (v : Int) (h1 : -2 ^ 15 ≤ v) (h2 : v < 2 ^ 15) :
    int16 (uint16 v) = v := by
  unfold int16 uint16
  split <;> omega

/-- C19: the big-endian integer helpers round-trip.  For every value of the
respective type, decoding the encoding gives the value back, for `uint64`,
`int64` (negative values included), `uint32`, `int32` and `int16`; the
encoders return exactly 8, 4 and 2 bytes, each below 256, most significant
byte first; and a signed encoder yields the bytes of the unsigned encoder
applied to the value modulo `2 ^ w`. -/
theorem wire_roundtrip :
    (∀ v : Nat, v < 2 ^ 64 → bytesUint64 (uint64Bytes v) = some v)
    ∧ (∀ v : Int, -2 ^ 63 ≤ v → v < 2 ^ 63 → bytesInt64 (int64Bytes v) = some v)
    ∧ (∀ v : Nat, v < 2 ^ 32 → bytesUint32 (uint32Bytes v) = some v)
    ∧ (∀ v : Int, -2 ^ 31 ≤ v → v < 2 ^ 31 → bytesInt32 (int32Bytes v) = some v)
    ∧ (∀ v : Int, -2 ^ 15 ≤ v → v < 2 ^ 15 → bytesInt16 (int16Bytes v) = some v)
    ∧ (∀ v : Nat, (uint64Bytes v).length = 8 ∧ (uint32Bytes v).length = 4)
    ∧ (∀ v : Int, (int64Bytes v).length = 8 ∧ (int32Bytes v).length = 4
        ∧ (int16Bytes v).length = 2)
    ∧ (∀ v : Nat,
        uint64Bytes v = [v / 2 ^ 56 % 256, v / 2 ^ 48 % 256, v / 2 ^ 40 % 256,
          v / 2 ^ 32 % 256, v / 2 ^ 24 % 256, v / 2 ^ 16 % 256, v / 2 ^ 8 % 256, v % 256]
        ∧ uint32Bytes v
            = [v / 2 ^ 24 % 256, v / 2 ^ 16 % 256, v / 2 ^ 8 % 256, v % 256])
    ∧ (∀ v : Int,
        int64Bytes v = uint64Bytes (v % 2 ^ 64).toNat
        ∧ int32Bytes v = uint32Bytes (v % 2 ^ 32).toNat
        ∧ int16Bytes v
            = [(v % 2 ^ 16).toNat / 2 ^ 8 % 256, (v % 2 ^ 16).toNat % 256])
    ∧ (∀ (v : Nat) (b : Nat), (b ∈ uint64Bytes v ∨ b ∈ uint32Bytes v) → b < 256)
    ∧ (∀ (v : Int) (b : Nat),
        (b ∈ int64Bytes v ∨ b ∈ int32Bytes v ∨ b ∈ int16Bytes v) → b < 256) := by
  have h64 : ∀ (v b : Nat), b ∈ uint64Bytes v → b < 256 := by
    intro v b hm
    rw [uint64Bytes_eq] at hm
    simp only [List.mem_cons, List.mem_singleton, List.not_mem_nil, or_false] at hm
    omega
  have h32 : ∀ (v b : Nat), b ∈ uint32Bytes v → b < 256 := by
    intro v b hm
    rw [uint32Bytes_eq] at hm
    simp only [List.mem_cons, List.mem_singleton, List.not_mem_nil, or_false] at hm
    omega
  refine ⟨bytesUint64_uint64Bytes, ?_, bytesUint32_uint32Bytes, ?_, ?_, ?_, ?_, ?_, ?_,
    ?_, ?_⟩
  · intro v h1 h2
    have h := bytesUint64_uint64Bytes (uint64 v) (uint64_lt v)
    simp only [bytesUint64, uint64Bytes] at h
    simp only [bytesInt64, int64Bytes, h, Option.map_some', int64_uint64 v h1 h2]
  · intro v h1 h2
    have h := bytesUint32_uint32Bytes (uint32 v) (uint32_lt v)
    simp only [bytesUint32, uint32Bytes] at h
    simp only [bytesInt32, int32Bytes, h, Option.map_some', int32_uint32 v h1 h2]
  · intro v h1 h2
    have h := Uint16_PutUint16 (uint16 v) (uint16_lt v)
    simp only [bytesInt16, int16Bytes, h, Option.map_some', int16_uint16 v h1 h2]
  · intro v
    rw [uint64Bytes_eq, uint32Bytes_eq]
    exact ⟨rfl, rfl⟩
  · intro v
    simp only [int64Bytes, int32Bytes, int16Bytes]
    have a := uint64Bytes_eq (uint64 v)
    have b := uint32Bytes_eq (uint32 v)
    have c := uint16Bytes_eq (uint16 v)
    simp only [uint64Bytes, uint32Bytes] at a b
    rw [a, b, c]
    exact ⟨rfl, rfl, rfl⟩
  · intro v
    exact ⟨uint64Bytes_eq v, uint32Bytes_eq v⟩
  · intro v
    refine ⟨rfl, rfl, ?_⟩
    simp only [int16Bytes]
    rw [uint16Bytes_eq]
    rfl
  · intro v b hm
    rcases hm with h | h
    · exact h64 v b h
    · exact h32 v b h
  · intro v b hm
    rcases hm with h | h | h
    · exact h64 (uint64 v) b h
    · exact h32 (uint32 v) b h
    · simp only [int16Bytes] at h
      rw [uint16Bytes_eq] at h
      simp only [List.mem_cons, List.mem_singleton, List.not_mem_nil, or_false] at h
      omega

/-- The values 258 and -2 are encoded and decoded. -/
theorem wire_roundtrip_witness :
    bytesUint64 (uint64Bytes 258) = some 258
    ∧ bytesInt64 (int64Bytes (-2)) = some (-2)
    ∧ bytesUint32 (uint32Bytes 258) = some 258
    ∧ bytesInt32 (int32Bytes (-2)) = some (-2)
    ∧ bytesInt16 (int16Bytes (-2)) = some (-2)
    ∧ uint64Bytes 258 = [0, 0, 0, 0, 0, 0, 1, 2]
    ∧ int16Bytes (-2) = [255, 254] :=
  ⟨wire_roundtrip.1 258 (by decide),
   wire_roundtrip.2.1 (-2) (by decide) (by decide),
   wire_roundtrip.2.2.1 258 (by decide),
   wire_roundtrip.2.2.2.1 (-2) (by decide) (by decide),
   wire_roundtrip.2.2.2.2.1 (-2) (by decide) (by decide),
   by decide, by decide⟩

end kafka

/-! The reflective value rewriter: theorems. -/

namespace lang

theorem fieldsTerminal_false_of_mem : ∀ (fields : GoFields) (u : GoType),
    u ∈ GoFields.exportedTypes fields → isTerminalKind u = false →
    fieldsTerminal fields = false
  | GoFields.nil, u, hm, _ => by simp [GoFields.exportedTypes] at hm
  | GoFields.cons exported type rest, u, hm, hu => by
    cases exported with
    | false =>
      simp only [GoFields.exportedTypes, Bool.false_eq_true, if_false] at hm
      simp only [fieldsTerminal, Bool.false_eq_true, if_false]
      exact fieldsTerminal_false_of_mem rest u hm hu
    | true =>
      simp only [GoFields.exportedTypes, if_true, List.mem_cons] at hm
      simp only [fieldsTerminal, if_true]
      rcases hm with h | h
      · rw [← h, hu]; rfl
      · cases ht : isTerminalKind type with
        | false => rfl
        | true =>
          simp only [Bool.not_true, Bool.false_eq_true, if_false]
          exact fieldsTerminal_false_of_mem rest u h hu

theorem isTerminalKind_false_of_step (t u : GoType) (h : TypeStep t u)
    (hu : isTerminalKind u = false) : isTerminalKind t = false := by
  cases h with
  | array len elem => simpa [isTerminalKind] using hu
  | slice elem => simpa [isTerminalKind] using hu
  | ptr elem => simpa [isTerminalKind] using hu
  | mapValue key elem => simpa [isTerminalKind] using hu
  | field fields u hm =>
    simp only [isTerminalKind]
    exact fieldsTerminal_false_of_mem fields u hm hu

theorem isTerminalKind_false_of_reachable (t : GoType) (h : interfaceReachable t) :
    isTerminalKind t = false := by
  unfold interfaceReachable at h
  induction h using Relation.ReflTransGen.head_induction_on with
  | refl => rfl
  | head hstep _ ih => exact isTerminalKind_false_of_step _ _ hstep ih

mutual
theorem reachable_of_isTerminalKind_false : ∀ t : GoType,
    isTerminalKind t = false → interfaceReachable t
  | GoType.array len elem, h =>
    Relation.ReflTransGen.head (TypeStep.array len elem)
      (reachable_of_isTerminalKind_false elem (by simpa [isTerminalKind] using h))
  | GoType.slice elem, h =>
    Relation.ReflTransGen.head (TypeStep.slice elem)
      (reachable_of_isTerminalKind_false elem (by simpa [isTerminalKind] using h))
  | GoType.ptr elem, h =>
    Relation.ReflTransGen.head (TypeStep.ptr elem)
      (reachable_of_isTerminalKind_false elem (by simpa [isTerminalKind] using h))
  | GoType.map key elem, h =>
    Relation.ReflTransGen.head (TypeStep.mapValue key elem)
      (reachable_of_isTerminalKind_false elem (by simpa [isTerminalKind] using h))
  | GoType.iface, _ => Relation.ReflTransGen.refl
  | GoType.struct fields, h => by
    obtain ⟨u, hm, hr⟩ :=
      reachable_of_fieldsTerminal_false fields (by simpa [isTerminalKind] using h)
    exact Relation.ReflTransGen.head (TypeStep.field fields u hm) hr
  | GoType.prim _, h => by simp [isTerminalKind] at h
  | GoType.chan _, h => by simp [isTerminalKind] at h
  | GoType.func, h => by simp [isTerminalKind] at h
  | GoType.unsafePointer, h => by simp [isTerminalKind] at h
theorem reachable_of_fieldsTerminal_false : ∀ fields : GoFields,
    fieldsTerminal fields = false →
    ∃ u, u ∈ GoFields.exportedTypes fields ∧ interfaceReachable u
  | GoFields.nil, h => by simp [fieldsTerminal] at h
  | GoFields.cons exported type rest, h => by
    cases exported with
    | false =>
      simp only [fieldsTerminal, Bool.false_eq_true, if_false] at h
      obtain ⟨u, hm, hr⟩ := reachable_of_fieldsTerminal_false rest h
      exact ⟨u, by simpa [GoFields.exportedTypes] using hm, hr⟩
    | true =>
      cases ht : isTerminalKind type with
      | false =>
        exact ⟨type, by simp [GoFields.exportedTypes],
          reachable_of_isTerminalKind_false type ht⟩
      | true =>
        simp only [fieldsTerminal, if_true, ht, Bool.not_true, Bool.false_eq_true,
          if_false] at h
        obtain ⟨u, hm, hr⟩ := reachable_of_fieldsTerminal_false rest h
        exact ⟨u, by simp [GoFields.exportedTypes, hm], hr⟩
end

/-- C17: `isTerminalKind` equals its reference definition.  For every finite
type `t`, `isTerminalKind(t)` is false if and only if an interface type is
reachable from `t` by repeatedly taking array, slice and pointer element
types, map value types (never map key types) and the types of exported struct
fields (never unexported fields).  In particular every primitive, chan, func
and unsafe-pointer type is terminal and the interface type is not. -/
theorem isTerminalKind_reference :
    (∀ t : GoType, isTerminalKind t = false ↔ interfaceReachable t)
    ∧ (∀ t : GoType, isTerminalKind t = true ↔ ¬ interfaceReachable t)
    ∧ (∀ kind, isTerminalKind (GoType.prim kind) = true)
    ∧ (∀ elem, isTerminalKind (GoType.chan elem) = true)
    ∧ isTerminalKind GoType.func = true
    ∧ isTerminalKind GoType.unsafePointer = true
    ∧ isTerminalKind GoType.iface = false := by
  have h1 : ∀ t : GoType, isTerminalKind t = false ↔ interfaceReachable t :=
    fun t => ⟨reachable_of_isTerminalKind_false t, isTerminalKind_false_of_reachable t⟩
  refine ⟨h1, ?_, fun _ => rfl, fun _ => rfl, rfl, rfl, rfl⟩
  intro t
  rw [← h1 t]
  cases isTerminalKind t <;> simp

/-- A struct with an exported pointer-to-interface field is not terminal; a
map with interface keys whose values hide their only interface in an
unexported field is terminal. -/
theorem isTerminalKind_reference_witness :
    interfaceReachable sampleStruct ∧ ¬ interfaceReachable sampleTerminal :=
  ⟨(isTerminalKind_reference.1 sampleStruct).mp (by decide),
   (isTerminalKind_reference.2.1 sampleTerminal).mp (by decide)⟩

/-! ### A rewrite function that never fires -/

theorem fire_of_none (rewrite : GoValue → Option GoValue) (src : GoValue) (next : RW)
    (h : rewrite src = none) : fire rewrite src next = next := by
  simp [fire, h]

theorem quietOn_self (rewrite : GoValue → Option GoValue) (v : GoValue)
    (h : quietOn rewrite v) : rewrite v = none :=
  h v Relation.ReflTransGen.refl

theorem quietOn_step (rewrite : GoValue → Option GoValue) (v u : GoValue)
    (h : quietOn rewrite v) (hstep : ValueStep v u) : quietOn rewrite u :=
  fun w hw => h w (Relation.ReflTransGen.head hstep hw)

theorem finish_done {α : Type} (c : Bool) (out : α) (build : α → GoValue) :
    finish (Loop.done c out) build
      = if c then RW.changed (build out) else RW.unchanged := by
  cases c <;> rfl

theorem wrap_ite (b : Bool) (d : GoValue) (build : GoValue → GoValue) :
    wrap (if b then RW.changed d else RW.unchanged) build
      = if b then RW.changed (build d) else RW.unchanged := by
  cases b <;> rfl

theorem join_done {α : Type} (put : GoValue → α → α) (src d : GoValue) (b c : Bool)
    (out : α) :
    join put src (if b then RW.changed d else RW.unchanged) (Loop.done c out)
      = Loop.done (b || c) (put (if b then d else src) out) := by
  cases b <;> rfl

theorem skipField_done (src : GoValue) (c : Bool) (out : GoFieldValues) :
    skipField src (Loop.done c out)
      = Loop.done c (GoFieldValues.cons false (zeroValue (GoValue.type src)) out) :=
  rfl

mutual
theorem rewriteValue_eq (rewrite : GoValue → Option GoValue) :
    ∀ v : GoValue, noChanFunc v = true → smallMaps v = true → quietOn rewrite v →
      rewriteValue rewrite v
        = if hasTypedNil v then RW.changed (collapsed v) else RW.unchanged
  | GoValue.array elem elems, hc, hm, hq => by
    rw [rewriteValue, fire_of_none _ _ _ (quietOn_self rewrite _ hq)]
    cases ht : isTerminalKind (GoValue.type (GoValue.array elem elems)) with
    | true => simp [hasTypedNil, ht]
    | false =>
      rw [if_neg (by simp),
        rewriteElems_eq rewrite elems (by simpa [noChanFunc] using hc)
          (by simpa [smallMaps] using hm)
          (fun u hu => quietOn_step rewrite _ u hq (ValueStep.array elem elems u ht hu)),
        finish_done]
      simp [hasTypedNil, ht, collapsed]
  | GoValue.sliceNil elem, _, _, hq => by
    rw [rewriteValue, fire_of_none _ _ _ (quietOn_self rewrite _ hq)]
    simp [hasTypedNil]
  | GoValue.slice elem elems, hc, hm, hq => by
    rw [rewriteValue, fire_of_none _ _ _ (quietOn_self rewrite _ hq)]
    cases ht : isTerminalKind (GoValue.type (GoValue.slice elem elems)) with
    | true => simp [hasTypedNil, ht]
    | false =>
      rw [if_neg (by simp),
        rewriteElems_eq rewrite elems (by simpa [noChanFunc] using hc)
          (by simpa [smallMaps] using hm)
          (fun u hu => quietOn_step rewrite _ u hq (ValueStep.slice elem elems u ht hu)),
        finish_done]
      simp [hasTypedNil, ht, collapsed]
  | GoValue.mapNil key elem, _, _, hq => by
    rw [rewriteValue, fire_of_none _ _ _ (quietOn_self rewrite _ hq)]
    simp [hasTypedNil]
  | GoValue.map key elem entries, hc, hm, hq => by
    rw [rewriteValue, fire_of_none _ _ _ (quietOn_self rewrite _ hq)]
    cases ht : isTerminalKind (GoValue.type (GoValue.map key elem entries)) with
    | true => simp [hasTypedNil, ht]
    | false =>
      rw [if_neg (by simp),
        rewriteEntries_eq rewrite entries (by simpa [noChanFunc] using hc)
          (by simpa [smallMaps, ht] using hm)
          (fun u hu => quietOn_step rewrite _ u hq
            (ValueStep.mapValue key elem entries u ht hu)),
        finish_done]
      simp [hasTypedNil, ht, collapsed]
  | GoValue.ptrNil elem, _, _, hq => by
    rw [rewriteValue, fire_of_none _ _ _ (quietOn_self rewrite _ hq)]
    simp [hasTypedNil]
  | GoValue.ptr target, hc, hm, hq => by
    rw [rewriteValue, fire_of_none _ _ _ (quietOn_self rewrite _ hq)]
    cases ht : isTerminalKind (GoValue.type (GoValue.ptr target)) with
    | true => simp [hasTypedNil, ht]
    | false =>
      rw [if_neg (by simp),
        rewriteValue_eq rewrite target (by simpa [noChanFunc] using hc)
          (by simpa [smallMaps] using hm)
          (quietOn_step rewrite _ target hq (ValueStep.ptr target ht)),
        wrap_ite]
      simp [hasTypedNil, ht, collapsed]
  | GoValue.ifaceNil, _, _, hq => by
    rw [rewriteValue, fire_of_none _ _ _ (quietOn_self rewrite _ hq)]
    simp [hasTypedNil]
  | GoValue.iface content, hc, hm, hq => by
    rw [rewriteValue, fire_of_none _ _ _ (quietOn_self rewrite _ hq)]
    cases hnil : isNilPtr content with
    | true => simp [hasTypedNil, hnil, collapsed]
    | false =>
      rw [if_neg (by simp)]
      cases ht : isTerminalKind (GoValue.type content) with
      | true => simp [hasTypedNil, hnil, ht]
      | false =>
        rw [if_neg (by simp),
          rewriteValue_eq rewrite content (by simpa [noChanFunc] using hc)
            (by simpa [smallMaps] using hm)
            (quietOn_step rewrite _ content hq (ValueStep.iface content ht)),
          wrap_ite]
        simp [hasTypedNil, hnil, ht, collapsed]
  | GoValue.struct fields, hc, hm, hq => by
    rw [rewriteValue, fire_of_none _ _ _ (quietOn_self rewrite _ hq)]
    cases ht : isTerminalKind (GoValue.type (GoValue.struct fields)) with
    | true => simp [hasTypedNil, ht]
    | false =>
      rw [if_neg (by simp),
        rewriteFields_eq rewrite fields (by simpa [noChanFunc] using hc)
          (by simpa [smallMaps] using hm)
          (fun u hu => quietOn_step rewrite _ u hq (ValueStep.field fields u ht hu)),
        finish_done]
      simp [hasTypedNil, ht, collapsed]
  | GoValue.chan elem, hc, _, _ => by simp [noChanFunc] at hc
  | GoValue.func, hc, _, _ => by simp [noChanFunc] at hc
  | GoValue.unsafePointer, hc, _, _ => by simp [noChanFunc] at hc
  | GoValue.prim kind data, _, _, hq => by
    rw [rewriteValue, fire_of_none _ _ _ (quietOn_self rewrite _ hq)]
    simp [hasTypedNil]
theorem rewriteElems_eq (rewrite : GoValue → Option GoValue) :
    ∀ elems : GoValues, noChanFuncElems elems = true → smallMapsElems elems = true →
      (∀ u, u ∈ GoValues.toList elems → quietOn rewrite u) →
      rewriteElems rewrite elems
        = Loop.done (anyTypedNilElems elems) (collapsedElems elems)
  | GoValues.nil, _, _, _ => by
    rw [rewriteElems, anyTypedNilElems, collapsedElems]
  | GoValues.cons v rest, hc, hm, hq => by
    simp only [noChanFuncElems, Bool.and_eq_true] at hc
    simp only [smallMapsElems, Bool.and_eq_true] at hm
    rw [rewriteElems,
      rewriteValue_eq rewrite v hc.1 hm.1 (hq v (by simp [GoValues.toList])),
      rewriteElems_eq rewrite rest hc.2 hm.2
        (fun u hu => hq u (by simp [GoValues.toList, hu])),
      join_done, anyTypedNilElems, collapsedElems]
theorem rewriteEntries_eq (rewrite : GoValue → Option GoValue) :
    ∀ entries : GoEntries, noChanFuncEntries entries = true →
      (smallMapsEntries1 entries = true ∧ smallMapsEntries entries = true) →
      (∀ u, u ∈ GoEntries.values entries → quietOn rewrite u) →
      rewriteEntries rewrite entries
        = Loop.done (anyTypedNilEntries entries) (collapsedEntries entries)
  | GoEntries.nil, _, _, _ => by
    rw [rewriteEntries, anyTypedNilEntries, collapsedEntries]
  | GoEntries.cons key v GoEntries.nil, hc, hm, hq => by
    simp only [noChanFuncEntries, Bool.and_eq_true] at hc
    simp only [smallMapsEntries, Bool.and_eq_true] at hm
    rw [rewriteEntries,
      rewriteValue_eq rewrite v hc.1 hm.2.1 (hq v (by simp [GoEntries.values])),
      join_done]
    simp [anyTypedNilEntries, collapsedEntries]
  | GoEntries.cons _ _ (GoEntries.cons _ _ _), _, hm, _ => by
    simp [smallMapsEntries1] at hm
theorem rewriteFields_eq (rewrite : GoValue → Option GoValue) :
    ∀ fields : GoFieldValues, noChanFuncFields fields = true →
      smallMapsFields fields = true →
      (∀ u, u ∈ GoFieldValues.exportedValues fields → quietOn rewrite u) →
      rewriteFields rewrite fields
        = Loop.done (anyTypedNilFields fields) (collapsedFields fields)
  | GoFieldValues.nil, _, _, _ => by
    rw [rewriteFields, anyTypedNilFields, collapsedFields]
  | GoFieldValues.cons exported v rest, hc, hm, hq => by
    simp only [noChanFuncFields, Bool.and_eq_true] at hc
    simp only [smallMapsFields, Bool.and_eq_true] at hm
    cases exported with
    | true =>
      rw [rewriteFields, if_pos rfl,
        rewriteValue_eq rewrite v hc.1 hm.1
          (hq v (by simp [GoFieldValues.exportedValues])),
        rewriteFields_eq rewrite rest hc.2 hm.2
          (fun u hu => hq u (by simp [GoFieldValues.exportedValues, hu])),
        join_done]
      simp [anyTypedNilFields, collapsedFields]
    | false =>
      rw [rewriteFields, if_neg (by decide),
        rewriteFields_eq rewrite rest hc.2 hm.2
          (fun u hu => hq u (by simpa [GoFieldValues.exportedValues] using hu)),
        skipField_done]
      simp [anyTypedNilFields, collapsedFields]
end

theorem reachesTypedNil_of_step (v u : GoValue) (hstep : ValueStep v u)
    (h : reachesTypedNil u) : reachesTypedNil v := by
  obtain ⟨w, hw, hn⟩ := h
  exact ⟨w, Relation.ReflTransGen.head hstep hw, hn⟩

theorem holdsNilPointer_of_isNilPtr (content : GoValue) (h : isNilPtr content = true) :
    holdsNilPointer (GoValue.iface content) := by
  cases content <;> simp [isNilPtr] at h
  exact ⟨_, rfl⟩

mutual
theorem reaches_of_hasTypedNil :
    ∀ v : GoValue, hasTypedNil v = true → reachesTypedNil v
  | GoValue.array elem elems, h => by
    simp only [hasTypedNil, Bool.and_eq_true, Bool.not_eq_true'] at h
    obtain ⟨u, hu, hreach⟩ := reaches_of_anyElems elems h.2
    exact reachesTypedNil_of_step _ u (ValueStep.array elem elems u h.1 hu) hreach
  | GoValue.slice elem elems, h => by
    simp only [hasTypedNil, Bool.and_eq_true, Bool.not_eq_true'] at h
    obtain ⟨u, hu, hreach⟩ := reaches_of_anyElems elems h.2
    exact reachesTypedNil_of_step _ u (ValueStep.slice elem elems u h.1 hu) hreach
  | GoValue.map key elem entries, h => by
    simp only [hasTypedNil, Bool.and_eq_true, Bool.not_eq_true'] at h
    obtain ⟨u, hu, hreach⟩ := reaches_of_anyEntries entries h.2
    exact reachesTypedNil_of_step _ u (ValueStep.mapValue key elem entries u h.1 hu) hreach
  | GoValue.ptr target, h => by
    simp only [hasTypedNil, Bool.and_eq_true, Bool.not_eq_true'] at h
    exact reachesTypedNil_of_step _ target (ValueStep.ptr target h.1)
      (reaches_of_hasTypedNil target h.2)
  | GoValue.iface content, h => by
    simp only [hasTypedNil, Bool.or_eq_true, Bool.and_eq_true, Bool.not_eq_true'] at h
    rcases h with hnil | ⟨ht, hc⟩
    · exact ⟨_, Relation.ReflTransGen.refl, holdsNilPointer_of_isNilPtr content hnil⟩
    · exact reachesTypedNil_of_step _ content (ValueStep.iface content ht)
        (reaches_of_hasTypedNil content hc)
  | GoValue.struct fields, h => by
    simp only [hasTypedNil, Bool.and_eq_true, Bool.not_eq_true'] at h
    obtain ⟨u, hu, hreach⟩ := reaches_of_anyFields fields h.2
    exact reachesTypedNil_of_step _ u (ValueStep.field fields u h.1 hu) hreach
  | GoValue.chan _, h => by simp [hasTypedNil] at h
  | GoValue.func, h => by simp [hasTypedNil] at h
  | GoValue.unsafePointer, h => by simp [hasTypedNil] at h
  | GoValue.prim _ _, h => by simp [hasTypedNil] at h
  | GoValue.sliceNil _, h => by simp [hasTypedNil] at h
  | GoValue.mapNil _ _, h => by simp [hasTypedNil] at h
  | GoValue.ptrNil _, h => by simp [hasTypedNil] at h
  | GoValue.ifaceNil, h => by simp [hasTypedNil] at h
theorem reaches_of_anyElems :
    ∀ elems : GoValues, anyTypedNilElems elems = true →
      ∃ u, u ∈ GoValues.toList elems ∧ reachesTypedNil u
  | GoValues.nil, h => by simp [anyTypedNilElems] at h
  | GoValues.cons v rest, h => by
    simp only [anyTypedNilElems, Bool.or_eq_true] at h
    rcases h with h | h
    · exact ⟨v, by simp [GoValues.toList], reaches_of_hasTypedNil v h⟩
    · obtain ⟨u, hu, hreach⟩ := reaches_of_anyElems rest h
      exact ⟨u, by simp [GoValues.toList, hu], hreach⟩
theorem reaches_of_anyEntries :
    ∀ entries : GoEntries, anyTypedNilEntries entries = true →
      ∃ u, u ∈ GoEntries.values entries ∧ reachesTypedNil u
  | GoEntries.nil, h => by simp [anyTypedNilEntries] at h
  | GoEntries.cons key v rest, h => by
    simp only [anyTypedNilEntries, Bool.or_eq_true] at h
    rcases h with h | h
    · exact ⟨v, by simp [GoEntries.values], reaches_of_hasTypedNil v h⟩
    · obtain ⟨u, hu, hreach⟩ := reaches_of_anyEntries rest h
      exact ⟨u, by simp [GoEntries.values, hu], hreach⟩
theorem reaches_of_anyFields :
    ∀ fields : GoFieldValues, anyTypedNilFields fields = true →
      ∃ u, u ∈ GoFieldValues.exportedValues fields ∧ reachesTypedNil u
  | GoFieldValues.nil, h => by simp [anyTypedNilFields] at h
  | GoFieldValues.cons exported v rest, h => by
    simp only [anyTypedNilFields, Bool.or_eq_true, Bool.and_eq_true] at h
    rcases h with ⟨he, h⟩ | h
    · exact ⟨v, by simp [GoFieldValues.exportedValues, he], reaches_of_hasTypedNil v h⟩
    · obtain ⟨u, hu, hreach⟩ := reaches_of_anyFields rest h
      refine ⟨u, ?_, hreach⟩
      cases exported <;> simp [GoFieldValues.exportedValues, hu]
end

end lang

